import Mathlib

/-
Shallow embedding of the ChessPlusPlus engine core (Board.cpp,
internal/Bitboard.cpp+.hpp, ZobristHasher.hpp, Eval.cpp, types.hpp).

Conventions of the embedding:
* `Bitboard` is a `Nat` kept < 2^64 by construction; the C++ `~bb` on a
  64-bit value is modelled as `MASK64 ^^^ bb`.
* `Square` is a `Nat` 0..63 with 64 as the INVALID sentinel, exactly as the
  C++ `Square` enum plus its `INVALID` value.
* `Color` is a `Nat` (0 = WHITE, 1 = BLACK) and `PieceType` a `Nat`
  (0 = PAWN .. 5 = KING, 6 = NONE), mirroring the `(int)` casts that the
  C++ applies to the scoped enums everywhere.
* `Piece` is a `Nat` `color*6 + piece_type` with NONE = 12 (`make_piece`,
  `get_piece_type`, `get_piece_color` are the functions from Eval.cpp).
* The twelve `Position::pieces[2][6]` bitboards are twelve named fields of
  the `Position` structure; `pieceBB pos i` with `i = color*6 + type`
  recovers array indexing. Indexing outside `[0,12)` is undefined behaviour
  in the C++ and is modelled as a harmless default (reads give 0, writes do
  nothing); all theorems below stay inside the defined range.
* The C++ iterates set bits of a bitboard with `lsb` / `bb &= bb-1`, i.e.
  in ascending square order; `squaresOf` reproduces exactly that ascending
  enumeration.
* `std::vector<MoveUndo> undo_history` with `push_back`/`back`/`pop_back`
  is modelled as a list with the most recent entry at the head.
-/

namespace ChessPlusPlus

/-- MASK64 is the 64-bit all-ones word; XOR with it models the C++ `~` on
a `uint64_t`. -/
def MASK64 : Nat := 2 ^ 64 - 1

/-- toggle_bit from internal/Bitboard.hpp: `bb ^= 1ULL << sq`. -/
def toggle_bit (bb sq : Nat) : Nat := bb ^^^ (1 <<< sq)

/-- squaresOf lists the set bits of a 64-bit board in ascending order,
which is exactly the order of the C++ `while (bb) { lsb(bb); bb &= bb-1; }`
loops. -/
def squaresOf (bb : Nat) : List Nat := (List.range 64).filter (fun s => bb.testBit s)

/-- lsbAux counts trailing zeros of a nonzero word by halving; the fuel
(64 suffices for the 64-bit boards of the program) makes the recursion
structural. -/
def lsbAux : Nat → Nat → Nat
  | _, 0 => 0
  | bb, (fuel+1) => if bb % 2 = 1 then 0 else lsbAux (bb / 2) fuel + 1

/-- lsb from internal/Bitboard.hpp (count trailing zeros); the C++ asserts
`bb != 0`, on 0 we return the junk value 0. -/
def lsb (bb : Nat) : Nat := if bb = 0 then 0 else lsbAux bb 64

/-- Knight move offsets, in the order of `init_knight_attacks`. -/
def knight_offsets : List (Int × Int) :=
  [(2,1), (2,-1), (-2,1), (-2,-1), (1,2), (1,-2), (-1,2), (-1,-2)]

/-- KNIGHT_ATTACKS from `init_knight_attacks`: for each offset inside the
board, toggle the target bit. -/
def KNIGHT_ATTACKS (sq : Nat) : Nat :=
  let file : Int := (sq : Int) % 8
  let rank : Int := (sq : Int) / 8
  knight_offsets.foldl
    (fun attacks d =>
      let tf := file + d.1
      let tr := rank + d.2
      if 0 ≤ tf ∧ tf < 8 ∧ 0 ≤ tr ∧ tr < 8 then
        toggle_bit attacks (tf + tr * 8).toNat
      else attacks) 0

/-- King move offsets in the order of the `df`/`dr` loops of
`init_king_attacks` (df outer, dr inner, skipping (0,0)). -/
def king_offsets : List (Int × Int) :=
  [(-1,-1), (-1,0), (-1,1), (0,-1), (0,1), (1,-1), (1,0), (1,1)]

/-- KING_ATTACKS from `init_king_attacks`. -/
def KING_ATTACKS (sq : Nat) : Nat :=
  let file : Int := (sq : Int) % 8
  let rank : Int := (sq : Int) / 8
  king_offsets.foldl
    (fun attacks d =>
      let tf := file + d.1
      let tr := rank + d.2
      if 0 ≤ tf ∧ tf < 8 ∧ 0 ≤ tr ∧ tr < 8 then
        toggle_bit attacks (tf + tr * 8).toNat
      else attacks) 0

/-- PAWN_ATTACKS from `init_pawn_attacks`: squares a pawn of the given
color standing ON `sq` attacks (0 = white moves up, 1 = black moves
down). -/
def PAWN_ATTACKS (color sq : Nat) : Nat :=
  let file := sq % 8
  let rank := sq / 8
  if color = 0 then
    if rank < 7 then
      (if file > 0 then 1 <<< (sq + 7) else 0) ||| (if file < 7 then 1 <<< (sq + 9) else 0)
    else 0
  else
    if rank > 0 then
      (if file > 0 then 1 <<< (sq - 9) else 0) ||| (if file < 7 then 1 <<< (sq - 7) else 0)
    else 0

/-- ray_attacks walks one ray (given as the ordered list of target squares
moving away from the origin) accumulating targets and stopping at the
first blocker, blocker included — the body of each direction loop of
`rook_attacks` / `bishop_attacks`. -/
def ray_attacks (occupancy : Nat) : List Nat → Nat
  | [] => 0
  | t :: ts =>
    if occupancy.testBit t then 1 <<< t
    else (1 <<< t) ||| ray_attacks occupancy ts

/-- rook_attacks from internal/Bitboard.hpp: four orthogonal rays walked
outward from `sq` against `occupancy`. -/
def rook_attacks (sq occupancy : Nat) : Nat :=
  let file := sq % 8
  let rank := sq / 8
  let north := (List.range 8).filterMap (fun r => if rank < r then some (file + r * 8) else none)
  let south := ((List.range 8).filterMap (fun r => if r < rank then some (file + r * 8) else none)).reverse
  let east := (List.range 8).filterMap (fun f => if file < f then some (f + rank * 8) else none)
  let west := ((List.range 8).filterMap (fun f => if f < file then some (f + rank * 8) else none)).reverse
  ray_attacks occupancy north ||| ray_attacks occupancy south |||
    ray_attacks occupancy east ||| ray_attacks occupancy west

/-- bishop_attacks from internal/Bitboard.hpp: four diagonal rays walked
outward from `sq`. -/
def bishop_attacks (sq occupancy : Nat) : Nat :=
  let file := sq % 8
  let rank := sq / 8
  let ne := (List.range 8).filterMap
    (fun i => if 1 ≤ i ∧ file + i < 8 ∧ rank + i < 8 then some ((file + i) + (rank + i) * 8) else none)
  let nw := (List.range 8).filterMap
    (fun i => if 1 ≤ i ∧ i ≤ file ∧ rank + i < 8 then some ((file - i) + (rank + i) * 8) else none)
  let se := (List.range 8).filterMap
    (fun i => if 1 ≤ i ∧ file + i < 8 ∧ i ≤ rank then some ((file + i) + (rank - i) * 8) else none)
  let sw := (List.range 8).filterMap
    (fun i => if 1 ≤ i ∧ i ≤ file ∧ i ≤ rank then some ((file - i) + (rank - i) * 8) else none)
  ray_attacks occupancy ne ||| ray_attacks occupancy nw |||
    ray_attacks occupancy se ||| ray_attacks occupancy sw

/-- queen_attacks = rook | bishop. -/
def queen_attacks (sq occupancy : Nat) : Nat :=
  rook_attacks sq occupancy ||| bishop_attacks sq occupancy

/-- make_piece from ZobristHasher.hpp: `color*6 + type`. -/
def make_piece (color t : Nat) : Nat := color * 6 + t

/-- get_piece_type from Eval.cpp: `p % 6` (note: NONE = 12 maps to PAWN). -/
def get_piece_type (p : Nat) : Nat := p % 6

/-- get_piece_color from Eval.cpp: `p / 6`. -/
def get_piece_color (p : Nat) : Nat := p / 6

/-- A Move is the packed record of Move.hpp; the C++ packs
`from | to<<6 | flag<<12 | promotion<<15` into one word and compares the
packed words, which for in-range fields (from,to < 64, flag,promotion < 8
— the only values the program ever builds) is the same as field-wise
equality, so we keep the four fields. Flags: 0 NORMAL, 1 CAPTURE,
2 PROMOTION, 3 CASTLING, 4 EN_PASSANT; promotion 6 is PieceType NONE. -/
structure Move where
  fromSq : Nat
  toSq : Nat
  flag : Nat
  promotion : Nat
deriving DecidableEq, Repr

/-- MoveUndo from Move.hpp. -/
structure MoveUndo where
  move : Move
  captured_piece : Nat
  old_castle_rights : Nat
  old_en_passant : Nat
  old_halfmove_clock : Nat
  old_hash : Nat
deriving DecidableEq, Repr

/-- Position from types.hpp. The twelve `pieces[2][6]` boards appear as
`wp wn wb wr wq wk` (white pawn..king, indices 0..5) and `bp bn bb2 br bq
bk` (black, indices 6..11). -/
structure Position where
  wp : Nat
  wn : Nat
  wb : Nat
  wr : Nat
  wq : Nat
  wk : Nat
  bp : Nat
  bn : Nat
  bb2 : Nat
  br : Nat
  bq : Nat
  bk : Nat
  occupancy_white : Nat
  occupancy_black : Nat
  occupancy_all : Nat
  side_to_move : Nat
  castle_rights : Nat
  en_passant_square : Nat
  halfmove_clock : Nat
  fullmove_number : Nat
  zobrist_hash : Nat
deriving DecidableEq, Repr

/-- Board = Position + undo stack (Board::Impl; most recent undo entry at
the head of the list). -/
structure Board where
  position : Position
  undo_history : List MoveUndo
deriving DecidableEq, Repr

/-- boardsList is the `pieces[2][6]` array flattened color-major, the
layout of the C++ `pieces[color][piece_type]`. -/
def boardsList (pos : Position) : List Nat :=
  [pos.wp, pos.wn, pos.wb, pos.wr, pos.wq, pos.wk,
   pos.bp, pos.bn, pos.bb2, pos.br, pos.bq, pos.bk]

/-- pieceBB reads `pieces[i/6][i%6]` by flat index `i = color*6 + type`;
out-of-range reads (undefined behaviour in the C++) give 0. -/
def pieceBB (pos : Position) (i : Nat) : Nat := (boardsList pos).getD i 0

/-- updBB XORs a mask into board `i` (the effect of
`toggle_bit(position.pieces[c][t], sq)` with `i = c*6+t`); out-of-range
writes (undefined behaviour in the C++) do nothing. -/
def updBB (pos : Position) (i msk : Nat) : Position :=
  if i = 0 then { pos with wp := pos.wp ^^^ msk }
  else if i = 1 then { pos with wn := pos.wn ^^^ msk }
  else if i = 2 then { pos with wb := pos.wb ^^^ msk }
  else if i = 3 then { pos with wr := pos.wr ^^^ msk }
  else if i = 4 then { pos with wq := pos.wq ^^^ msk }
  else if i = 5 then { pos with wk := pos.wk ^^^ msk }
  else if i = 6 then { pos with bp := pos.bp ^^^ msk }
  else if i = 7 then { pos with bn := pos.bn ^^^ msk }
  else if i = 8 then { pos with bb2 := pos.bb2 ^^^ msk }
  else if i = 9 then { pos with br := pos.br ^^^ msk }
  else if i = 10 then { pos with bq := pos.bq ^^^ msk }
  else if i = 11 then { pos with bk := pos.bk ^^^ msk }
  else pos

/-- updCT is `toggle_bit(position.pieces[color][t], sq)` with 2-d
indexing. -/
def updCT (pos : Position) (color t sq : Nat) : Position :=
  updBB pos (color * 6 + t) (1 <<< sq)

/-- get_piece_at from Board.cpp: scan color 0..1 then piece type 0..5 and
return `color*6 + piece_type` for the first board whose bit at `sq` is
set, else NONE = 12. -/
def get_piece_at (pos : Position) (sq : Nat) : Nat :=
  if (pieceBB pos 0).testBit sq then 0 else if (pieceBB pos 1).testBit sq then 1
  else if (pieceBB pos 2).testBit sq then 2 else if (pieceBB pos 3).testBit sq then 3
  else if (pieceBB pos 4).testBit sq then 4 else if (pieceBB pos 5).testBit sq then 5
  else if (pieceBB pos 6).testBit sq then 6 else if (pieceBB pos 7).testBit sq then 7
  else if (pieceBB pos 8).testBit sq then 8 else if (pieceBB pos 9).testBit sq then 9
  else if (pieceBB pos 10).testBit sq then 10 else if (pieceBB pos 11).testBit sq then 11
  else 12

/-- pieces_of_type from Board.cpp: the set-bit squares of one board in
ascending (lsb-pop) order. -/
def pieces_of_type (pos : Position) (color t : Nat) : List Nat :=
  squaresOf (pieceBB pos (color * 6 + t))

/-- update_occupancy from Board.cpp: rebuild the three occupancy boards
from the twelve piece boards. -/
def update_occupancy (pos : Position) : Position :=
  { pos with
    occupancy_white := pos.wp ||| pos.wn ||| pos.wb ||| pos.wr ||| pos.wq ||| pos.wk
    occupancy_black := pos.bp ||| pos.bn ||| pos.bb2 ||| pos.br ||| pos.bq ||| pos.bk
    occupancy_all :=
      (pos.wp ||| pos.wn ||| pos.wb ||| pos.wr ||| pos.wq ||| pos.wk) |||
        (pos.bp ||| pos.bn ||| pos.bb2 ||| pos.br ||| pos.bq ||| pos.bk) }

/-- occupancyOf reads `position.occupancy[color]`. -/
def occupancyOf (pos : Position) (color : Nat) : Nat :=
  if color = 0 then pos.occupancy_white else pos.occupancy_black

/-- find_king from Board.cpp: lsb of the king board, INVALID = 64 if the
board is empty. -/
def find_king (pos : Position) (color : Nat) : Nat :=
  let king_bb := pieceBB pos (color * 6 + 5)
  if king_bb = 0 then 64 else lsb king_bb

/-- is_square_attacked_by from Board.cpp. Note the pawn clause: it looks
up `PAWN_ATTACKS[(int)enemy_color][(int)sq]` — the attack squares OF an
enemy-colored pawn standing on `sq` — and intersects with the enemy
pawns. -/
def is_square_attacked_by (pos : Position) (sq enemy_color : Nat) : Bool :=
  if KNIGHT_ATTACKS sq &&& pieceBB pos (enemy_color * 6 + 1) ≠ 0 then true
  else if KING_ATTACKS sq &&& pieceBB pos (enemy_color * 6 + 5) ≠ 0 then true
  else if PAWN_ATTACKS enemy_color sq &&& pieceBB pos (enemy_color * 6 + 0) ≠ 0 then true
  else if rook_attacks sq pos.occupancy_all &&& pieceBB pos (enemy_color * 6 + 3) ≠ 0 then true
  else if bishop_attacks sq pos.occupancy_all &&& pieceBB pos (enemy_color * 6 + 2) ≠ 0 then true
  else if queen_attacks sq pos.occupancy_all &&& pieceBB pos (enemy_color * 6 + 4) ≠ 0 then true
  else false

/-- is_king_under_attack from Board.cpp (the C++ throws when the king is
missing; with a king present — the only case the theorems use — the value
below is the C++ value). -/
def is_king_under_attack (pos : Position) (king_color : Nat) : Bool :=
  let king := find_king pos king_color
  let enemy_color := if king_color = 0 then 1 else 0
  is_square_attacked_by pos king enemy_color

end ChessPlusPlus

namespace ChessPlusPlus

/-- sq_add models the C++ cast `(Square)((int)sq + d)` to the `uint8_t`
backed Square enum: int addition followed by wrap-around mod 256. -/
def sq_add (sq : Nat) (d : Int) : Nat := (((sq : Int) + d) % 256).toNat

/-- generate_pawn_moves from Board.cpp: single push (with promotion
fan-out), double push from the start rank, and diagonal captures onto
enemy-occupied squares (again with promotion fan-out). No EN_PASSANT flag
is ever produced here. -/
def generate_pawn_moves (pos : Position) (color : Nat) : List Move :=
  (squaresOf (pieceBB pos (color * 6 + 0))).flatMap (fun f =>
    let direction : Int := if color = 0 then 8 else -8
    let tsq := sq_add f direction
    let pushes :=
      if tsq < 64 ∧ get_piece_at pos tsq = 12 then
        (if (color = 0 ∧ tsq / 8 = 7) ∨ (color = 1 ∧ tsq / 8 = 0) then
          [⟨f, tsq, 2, 4⟩, ⟨f, tsq, 2, 3⟩, ⟨f, tsq, 2, 2⟩, ⟨f, tsq, 2, 1⟩]
        else [⟨f, tsq, 0, 6⟩]) ++
        (if (color = 0 ∧ f / 8 = 1) ∨ (color = 1 ∧ f / 8 = 6) then
          (let double_to := sq_add f (2 * direction)
           if get_piece_at pos double_to = 12 then [⟨f, double_to, 0, 6⟩] else [])
         else [])
      else []
    let caps :=
      (squaresOf (PAWN_ATTACKS color f &&& (MASK64 ^^^ occupancyOf pos color))).flatMap
        (fun t =>
          let target := get_piece_at pos t
          if target ≠ 12 ∧ get_piece_color target ≠ color then
            (if (color = 0 ∧ t / 8 = 7) ∨ (color = 1 ∧ t / 8 = 0) then
              [⟨f, t, 2, 4⟩, ⟨f, t, 2, 3⟩, ⟨f, t, 2, 2⟩, ⟨f, t, 2, 1⟩]
            else [⟨f, t, 1, 6⟩])
          else [])
    pushes ++ caps)

/-- generate_knight_moves from Board.cpp. -/
def generate_knight_moves (pos : Position) (color : Nat) : List Move :=
  (squaresOf (pieceBB pos (color * 6 + 1))).flatMap (fun f =>
    (squaresOf (KNIGHT_ATTACKS f &&& (MASK64 ^^^ occupancyOf pos color))).filterMap
      (fun t =>
        let target := get_piece_at pos t
        if target = 12 then some ⟨f, t, 0, 6⟩
        else if get_piece_color target ≠ color then some ⟨f, t, 1, 6⟩
        else none))

/-- generate_castling_moves from Board.cpp (E1=4 F1=5 G1=6, B1=1 C1=2
D1=3, E8=60 F8=61 G8=62, B8=57 C8=58 D8=59). -/
def generate_castling_moves (pos : Position) (color : Nat) : List Move :=
  (if color = 0 then
    (if pos.castle_rights &&& 0b0001 ≠ 0 ∧
        get_piece_at pos 5 = 12 ∧ get_piece_at pos 6 = 12 ∧
        is_square_attacked_by pos 4 1 = false ∧
        is_square_attacked_by pos 5 1 = false ∧
        is_square_attacked_by pos 6 1 = false then [⟨4, 6, 3, 6⟩] else []) ++
    (if pos.castle_rights &&& 0b0010 ≠ 0 ∧
        get_piece_at pos 1 = 12 ∧ get_piece_at pos 2 = 12 ∧ get_piece_at pos 3 = 12 ∧
        is_square_attacked_by pos 4 1 = false ∧
        is_square_attacked_by pos 3 1 = false ∧
        is_square_attacked_by pos 2 1 = false then [⟨4, 2, 3, 6⟩] else [])
  else []) ++
  (if color = 1 then
    (if pos.castle_rights &&& 0b0100 ≠ 0 ∧
        get_piece_at pos 61 = 12 ∧ get_piece_at pos 62 = 12 ∧
        is_square_attacked_by pos 60 0 = false ∧
        is_square_attacked_by pos 61 0 = false ∧
        is_square_attacked_by pos 62 0 = false then [⟨60, 62, 3, 6⟩] else []) ++
    (if pos.castle_rights &&& 0b1000 ≠ 0 ∧
        get_piece_at pos 57 = 12 ∧ get_piece_at pos 58 = 12 ∧ get_piece_at pos 59 = 12 ∧
        is_square_attacked_by pos 60 0 = false ∧
        is_square_attacked_by pos 59 0 = false ∧
        is_square_attacked_by pos 58 0 = false then [⟨60, 58, 3, 6⟩] else [])
  else [])

/-- generate_king_moves from Board.cpp; note that the trailing castling
call passes `position.side_to_move`, not the `color` parameter. -/
def generate_king_moves (pos : Position) (color : Nat) : List Move :=
  let kings := pieceBB pos (color * 6 + 5)
  if kings = 0 then []
  else
    let f := lsb kings
    ((squaresOf (KING_ATTACKS f &&& (MASK64 ^^^ occupancyOf pos color))).filterMap
      (fun t =>
        let target := get_piece_at pos t
        if target = 12 then some ⟨f, t, 0, 6⟩
        else if get_piece_color target ≠ color then some ⟨f, t, 1, 6⟩
        else none)) ++ generate_castling_moves pos pos.side_to_move

/-- generate_bishop_moves from Board.cpp (occupancy filter and color
comparison both use `position.side_to_move`). -/
def generate_bishop_moves (pos : Position) (f : Nat) : List Move :=
  (squaresOf (bishop_attacks f pos.occupancy_all &&&
      (MASK64 ^^^ occupancyOf pos pos.side_to_move))).filterMap
    (fun t =>
      let target := get_piece_at pos t
      if target = 12 then some ⟨f, t, 0, 6⟩
      else if get_piece_color target ≠ pos.side_to_move then some ⟨f, t, 1, 6⟩
      else none)

/-- generate_rook_moves from Board.cpp. -/
def generate_rook_moves (pos : Position) (f : Nat) : List Move :=
  (squaresOf (rook_attacks f pos.occupancy_all &&&
      (MASK64 ^^^ occupancyOf pos pos.side_to_move))).filterMap
    (fun t =>
      let target := get_piece_at pos t
      if target = 12 then some ⟨f, t, 0, 6⟩
      else if get_piece_color target ≠ pos.side_to_move then some ⟨f, t, 1, 6⟩
      else none)

/-- generate_queen_moves from Board.cpp. -/
def generate_queen_moves (pos : Position) (f : Nat) : List Move :=
  (squaresOf (queen_attacks f pos.occupancy_all &&&
      (MASK64 ^^^ occupancyOf pos pos.side_to_move))).filterMap
    (fun t =>
      let target := get_piece_at pos t
      if target = 12 then some ⟨f, t, 0, 6⟩
      else if get_piece_color target ≠ pos.side_to_move then some ⟨f, t, 1, 6⟩
      else none)

/-- generate_pseudo_legal_moves from Board.cpp: pawns, knights, king (with
castling), then every bishop, rook and queen of the side to move. -/
def generate_pseudo_legal_moves (pos : Position) : List Move :=
  let player := pos.side_to_move
  generate_pawn_moves pos player ++ generate_knight_moves pos player ++
    generate_king_moves pos player ++
    (pieces_of_type pos player 2).flatMap (generate_bishop_moves pos) ++
    (pieces_of_type pos player 3).flatMap (generate_rook_moves pos) ++
    (pieces_of_type pos player 4).flatMap (generate_queen_moves pos)

/-- calculate_new_castle_rights from Board.cpp: the castling-flag branch
only fires for from=E1/E8, then the corner-square chain runs (A1=0 H1=7
A8=56 H8=63). -/
def calculate_new_castle_rights (pos : Position) (m : Move) : Nat :=
  if m.flag = 3 ∧ m.fromSq = 4 then pos.castle_rights &&& 0b1100
  else if m.flag = 3 ∧ m.fromSq = 60 then pos.castle_rights &&& 0b0011
  else if m.fromSq = 7 ∨ m.toSq = 7 then pos.castle_rights &&& 0b1110
  else if m.fromSq = 0 ∨ m.toSq = 0 then pos.castle_rights &&& 0b1101
  else if m.fromSq = 63 ∨ m.toSq = 63 then pos.castle_rights &&& 0b1011
  else if m.fromSq = 56 ∨ m.toSq = 56 then pos.castle_rights &&& 0b0111
  else pos.castle_rights

/-- calculate_new_en_passant from Board.cpp. In `apply_move` the C++
calls it AFTER the piece bitboards have been toggled, so `get_piece_at`
sees the already-moved board; `get_piece_type` of the then-empty `from`
square is `12 % 6 = 0 = PAWN`. The argument below is that mutated
position, exactly as at the call site. -/
def calculate_new_en_passant (pos : Position) (m : Move) : Nat :=
  let piece := get_piece_at pos m.fromSq
  if get_piece_type piece ≠ 0 then 64
  else if (((m.fromSq / 8 : Nat) : Int) - ((m.toSq / 8 : Nat) : Int)).natAbs = 2 then
    (m.fromSq + m.toSq) / 2
  else 64

/-- ZKeys holds the Zobrist random tables of ZobristHasher.hpp
(piece-square, castle-rights mask, en-passant file, black to move). The
C++ fills them from a fixed-seed mt19937_64; every theorem below holds
for arbitrary table contents, hence for those. -/
structure ZKeys where
  piece : Nat → Nat → Nat
  castle : Nat → Nat
  ep : Nat → Nat
  black : Nat

/-- hashBBAux XORs `k sq` over the set bits of `bb` below `n`. -/
def hashBBAux (k : Nat → Nat) (bb : Nat) : Nat → Nat
  | 0 => 0
  | (n+1) => hashBBAux k bb n ^^^ (if bb.testBit n then k n else 0)

/-- hashBB is the per-board part of `ZobristHasher::compute`: the C++
pops set bits in lsb order XORing `piece_hashes[piece][sq]`; XOR is
commutative and associative, so the fold over squares 0..63 below is the
same value for the 64-bit boards the program manipulates. -/
def hashBB (k : Nat → Nat) (bb : Nat) : Nat := hashBBAux k bb 64

/-- compute from ZobristHasher.hpp: piece-square keys (color-major board
order, the order of the C++ loops), castle key, en-passant FILE key when
the EP square is valid, black key when Black is to move. -/
def compute (kb : ZKeys) (pos : Position) : Nat :=
  let h := hashBB (kb.piece 0) pos.wp ^^^ hashBB (kb.piece 1) pos.wn ^^^
    hashBB (kb.piece 2) pos.wb ^^^ hashBB (kb.piece 3) pos.wr ^^^
    hashBB (kb.piece 4) pos.wq ^^^ hashBB (kb.piece 5) pos.wk ^^^
    hashBB (kb.piece 6) pos.bp ^^^ hashBB (kb.piece 7) pos.bn ^^^
    hashBB (kb.piece 8) pos.bb2 ^^^ hashBB (kb.piece 9) pos.br ^^^
    hashBB (kb.piece 10) pos.bq ^^^ hashBB (kb.piece 11) pos.bk
  let h := h ^^^ kb.castle pos.castle_rights
  let h := if pos.en_passant_square ≠ 64 then h ^^^ kb.ep (pos.en_passant_square % 8) else h
  if pos.side_to_move = 1 then h ^^^ kb.black else h

/-- hupdate is `ZobristHasher::update` (G1=6 C1=2 G8=62 and the final
else-branch covering every other target as C8). -/
def hupdate (kb : ZKeys) (h : Nat) (m : Move)
    (moved captured old_cr new_cr old_ep new_ep : Nat) : Nat :=
  let h := h ^^^ kb.piece moved m.fromSq
  let h :=
    if m.flag = 2 then h ^^^ kb.piece (make_piece (get_piece_color moved) m.promotion) m.toSq
    else h ^^^ kb.piece moved m.toSq
  let h := if captured ≠ 12 then h ^^^ kb.piece captured m.toSq else h
  let h :=
    if m.flag = 4 then
      let captured_pawn := make_piece (if get_piece_color moved = 0 then 1 else 0) 0
      let captured_sq := if get_piece_color moved = 1 then sq_add m.toSq 8 else sq_add m.toSq (-8)
      h ^^^ kb.piece captured_pawn captured_sq
    else h
  let h :=
    if m.flag = 3 then
      let rook := make_piece (get_piece_color moved) 3
      let rook_from := if m.toSq = 6 then 7 else if m.toSq = 2 then 0 else if m.toSq = 62 then 63 else 56
      let rook_to := if m.toSq = 6 then 5 else if m.toSq = 2 then 3 else if m.toSq = 62 then 61 else 59
      h ^^^ kb.piece rook rook_from ^^^ kb.piece rook rook_to
    else h
  let h := if old_cr ≠ new_cr then h ^^^ kb.castle old_cr ^^^ kb.castle new_cr else h
  let h :=
    if old_ep ≠ new_ep then
      let h := if old_ep ≠ 64 then h ^^^ kb.ep (old_ep % 8) else h
      if new_ep ≠ 64 then h ^^^ kb.ep (new_ep % 8) else h
    else h
  h ^^^ kb.black

/-- boards_after is the bitboard-toggling phase of
`Board::Impl::apply_move` (lines 426-473 of Board.cpp): remove the
captured piece, move the mover from `from` to `to`, then the promotion,
castling and en-passant adjustments, in that order. -/
def boards_after (pos : Position) (m : Move) : Position :=
  let piece := get_piece_at pos m.fromSq
  let color := get_piece_color piece
  let t := get_piece_type piece
  let captured := get_piece_at pos m.toSq
  let pos1 :=
    if captured ≠ 12 then
      updCT pos (get_piece_color captured) (get_piece_type captured) m.toSq
    else pos
  let pos2 := updCT (updCT pos1 color t m.fromSq) color t m.toSq
  let pos3 :=
    if m.flag = 2 then updCT (updCT pos2 color 0 m.toSq) color m.promotion m.toSq else pos2
  let pos4 :=
    if m.flag = 3 then
      (if m.toSq = 6 then updCT (updCT pos3 0 3 7) 0 3 5
       else if m.toSq = 2 then updCT (updCT pos3 0 3 0) 0 3 3
       else if m.toSq = 62 then updCT (updCT pos3 1 3 63) 1 3 61
       else if m.toSq = 58 then updCT (updCT pos3 1 3 56) 1 3 59
       else pos3)
    else pos3
  if m.flag = 4 then
    (let captured_pawn_sq := if color = 0 then sq_add m.toSq (-8) else sq_add m.toSq 8
     let enemy_color := if color = 0 then 1 else 0
     updCT pos4 enemy_color 0 captured_pawn_sq)
  else pos4

/-- apply_move is `Board::Impl::apply_move`: push the undo snapshot,
toggle the boards (`boards_after`), compute the new castle rights and —
from the already-toggled boards — the new en-passant square, update the
hash incrementally, assign the state fields, flip the side, adjust the
clocks, rebuild occupancy. -/
def apply_move (kb : ZKeys) (b : Board) (m : Move) : Board :=
  let pos0 := b.position
  let undo : MoveUndo :=
    ⟨m, get_piece_at pos0 m.toSq, pos0.castle_rights, pos0.en_passant_square,
      pos0.halfmove_clock, pos0.zobrist_hash⟩
  let piece := get_piece_at pos0 m.fromSq
  let captured := get_piece_at pos0 m.toSq
  let pos5 := boards_after pos0 m
  let new_castle := calculate_new_castle_rights pos5 m
  let new_en_passant := calculate_new_en_passant pos5 m
  let new_hash := hupdate kb pos0.zobrist_hash m piece captured
    pos0.castle_rights new_castle pos0.en_passant_square new_en_passant
  let new_side := if pos0.side_to_move = 0 then 1 else 0
  let new_halfmove :=
    if m.flag = 1 ∨ m.flag = 4 ∨ get_piece_type piece = 0 then 0 else pos0.halfmove_clock + 1
  let new_fullmove := if new_side = 1 then pos0.fullmove_number + 1 else pos0.fullmove_number
  let pos6 := update_occupancy
    { pos5 with
      zobrist_hash := new_hash
      castle_rights := new_castle
      en_passant_square := new_en_passant
      side_to_move := new_side
      halfmove_clock := new_halfmove
      fullmove_number := new_fullmove }
  ⟨pos6, undo :: b.undo_history⟩

/-- restore_boards is the bitboard phase of
`Board::Impl::restore_from_history`: read the moved piece from `to`
(where it now stands), put the captured piece back, move the mover back,
then the en-passant, promotion and castling undo toggles, in the order of
the C++. The scalar fields are restored by `restore_from_history` from
the MoveUndo snapshot — the hash is RESTORED from old_hash, never
recomputed. On an empty history (excluded by the `undo_move` guard in
the C++) `restore_from_history` is the identity. -/
def restore_boards (pos : Position) (undo : MoveUndo) : Position :=
  let m := undo.move
  let piece := get_piece_at pos m.toSq
  let color := get_piece_color piece
  let t := get_piece_type piece
  let pos1 :=
    if undo.captured_piece ≠ 12 then
      updCT pos (get_piece_color undo.captured_piece) (get_piece_type undo.captured_piece) m.toSq
    else pos
  let pos2 := updCT (updCT pos1 color t m.toSq) color t m.fromSq
  let pos3 :=
    if m.flag = 4 then
      (let captured_pawn_sq := if color = 0 then sq_add m.toSq (-8) else sq_add m.toSq 8
       let enemy_color := if color = 0 then 1 else 0
       updCT pos2 enemy_color 0 captured_pawn_sq)
    else pos2
  let pos4 :=
    if m.flag = 2 then updCT (updCT pos3 color m.promotion m.fromSq) color 0 m.fromSq else pos3
  if m.flag = 3 then
    (if m.toSq = 6 then updCT (updCT pos4 0 3 5) 0 3 7
     else if m.toSq = 2 then updCT (updCT pos4 0 3 3) 0 3 0
     else if m.toSq = 62 then updCT (updCT pos4 1 3 61) 1 3 63
     else if m.toSq = 58 then updCT (updCT pos4 1 3 59) 1 3 56
     else pos4)
  else pos4

/-- restore_from_history continued: pop, toggle back via
`restore_boards`, restore the saved scalar fields, flip the side back,
decrement the fullmove number when the restored side is White, rebuild
occupancy. -/
def restore_from_history (b : Board) : Board :=
  match b.undo_history with
  | [] => b
  | undo :: rest =>
    let pos0 := b.position
    let pos5 := restore_boards pos0 undo
    let new_side := if pos0.side_to_move = 0 then 1 else 0
    let pos6 := update_occupancy
      { pos5 with
        zobrist_hash := undo.old_hash
        castle_rights := undo.old_castle_rights
        en_passant_square := undo.old_en_passant
        side_to_move := new_side
        halfmove_clock := undo.old_halfmove_clock
        fullmove_number := if new_side = 0 then pos0.fullmove_number - 1 else pos0.fullmove_number }
    ⟨pos6, rest⟩

/-- is_legal_move from Board.cpp: apply the move, test whether the
mover's king is attacked, restore; the returned value is the king-safety
test on the applied position. -/
def is_legal_move (kb : ZKeys) (b : Board) (m : Move) : Bool :=
  let my_color := b.position.side_to_move
  let b2 := apply_move kb b m
  !is_king_under_attack b2.position my_color

/-- generate_moves from Board.cpp: pseudo-legal moves filtered through
is_legal_move. -/
def generate_moves (kb : ZKeys) (b : Board) : List Move :=
  (generate_pseudo_legal_moves b.position).filter (fun m => is_legal_move kb b m)

/-- make_move from Board.cpp: throws (none) on an illegal move, otherwise
applies it. -/
def make_move (kb : ZKeys) (b : Board) (m : Move) : Option Board :=
  if is_legal_move kb b m then some (apply_move kb b m) else none

/-- undo_move from Board.cpp: throws (none) on an empty history. -/
def undo_move (b : Board) : Option Board :=
  if b.undo_history.isEmpty then none else some (restore_from_history b)

/-- move_history from Board.cpp (oldest first, as the C++ vector). -/
def move_history (b : Board) : List Move :=
  (b.undo_history.map (fun u => u.move)).reverse

/-- clear_history from Board.cpp. -/
def clear_history (b : Board) : Board := ⟨b.position, []⟩

/-- is_in_check from Board.cpp. -/
def is_in_check (b : Board) : Bool := is_king_under_attack b.position b.position.side_to_move

/-- is_checkmate from Board.cpp. -/
def is_checkmate (kb : ZKeys) (b : Board) : Bool :=
  is_in_check b && (generate_moves kb b).isEmpty

/-- is_stalemate from Board.cpp. -/
def is_stalemate (kb : ZKeys) (b : Board) : Bool :=
  !is_in_check b && (generate_moves kb b).isEmpty

/-- is_50_move_draw from Board.cpp. -/
def is_50_move_draw (b : Board) : Bool := decide (b.position.halfmove_clock ≥ 100)

/-- position_repetitions from Board.cpp: count undo entries whose
old_hash equals the current hash. -/
def position_repetitions (b : Board) : Nat :=
  (b.undo_history.filter (fun u => u.old_hash = b.position.zobrist_hash)).length

/-- is_threefold_repetition from Board.cpp. -/
def is_threefold_repetition (b : Board) : Bool := decide (position_repetitions b ≥ 3)

/-- Modelled from the spec: `Board::is_draw` is declared in Board.hpp and
called by the evaluator but its definition is not under src/; per spec
§4.5 the draw conditions are stalemate, the 50-move rule and threefold
repetition. -/
def is_draw (kb : ZKeys) (b : Board) : Bool :=
  is_stalemate kb b || is_50_move_draw b || is_threefold_repetition b

/-- CHECKMATE from types.hpp. -/
def CHECKMATE : Int := 32700

/-- PIECE_VALUES from types.hpp (P,N,B,R,Q,K). -/
def PIECE_VALUES (t : Nat) : Int :=
  if t = 0 then 100 else if t = 1 then 320 else if t = 2 then 330
  else if t = 3 then 500 else if t = 4 then 900 else 0

/-- evaluate is `Evaluator::Impl::evaluate` (forwarded verbatim by
`Engine::evaluate`): checkmate and draw overrides first — the checkmate
value is `-CHECKMATE` when WHITE is to move and `+CHECKMATE` when BLACK
is to move — then the white-minus-black material+PST sum. `pstv pt sq
color` abstracts `pst.get_value(pt, sq, color, phase)` at the current
game phase (the phase is a C++ double consumed only inside the table
lookup; no claim constrains it, so the whole lookup is a parameter). -/
def evaluate (kb : ZKeys) (pstv : Nat → Nat → Nat → Int) (b : Board) : Int :=
  if is_checkmate kb b then (if b.position.side_to_move = 0 then -CHECKMATE else CHECKMATE)
  else if is_draw kb b then 0
  else
    (List.range 2).foldl
      (fun s color =>
        let sign : Int := if color = 0 then 1 else -1
        (List.range 6).foldl
          (fun s pt =>
            (pieces_of_type b.position color pt).foldl
              (fun s sq => s + sign * (PIECE_VALUES pt + pstv pt sq color)) s)
          s)
      0

end ChessPlusPlus

namespace ChessPlusPlus

/-- orBB ORs a mask into board `i` (the `pieces[color][piece_type] |= bit`
of `parse_board`); out-of-range writes do nothing. -/
def orBB (pos : Position) (i msk : Nat) : Position :=
  if i = 0 then { pos with wp := pos.wp ||| msk }
  else if i = 1 then { pos with wn := pos.wn ||| msk }
  else if i = 2 then { pos with wb := pos.wb ||| msk }
  else if i = 3 then { pos with wr := pos.wr ||| msk }
  else if i = 4 then { pos with wq := pos.wq ||| msk }
  else if i = 5 then { pos with wk := pos.wk ||| msk }
  else if i = 6 then { pos with bp := pos.bp ||| msk }
  else if i = 7 then { pos with bn := pos.bn ||| msk }
  else if i = 8 then { pos with bb2 := pos.bb2 ||| msk }
  else if i = 9 then { pos with br := pos.br ||| msk }
  else if i = 10 then { pos with bq := pos.bq ||| msk }
  else if i = 11 then { pos with bk := pos.bk ||| msk }
  else pos

/-- splitTokens models the six `istringstream >>` extractions: whitespace
separated tokens (missing tokens read as empty strings via `tokenAt`). -/
def splitTokens (s : List Char) : List (List Char) :=
  (s.splitOn ' ').filter (fun t => t ≠ [])

/-- tokenAt gives the i-th extracted token, or the empty string when the
stream ran out (the C++ leaves the string empty). -/
def tokenAt (toks : List (List Char)) (i : Nat) : List Char := toks.getD i []

/-- string_to_square from Board.cpp: "-" gives INVALID, otherwise a
two-character file/rank name inside a1..h8, else an error. -/
def string_to_square (s : List Char) : Except Unit Nat :=
  if s = ['-'] then .ok 64
  else if s.length ≠ 2 then .error ()
  else
    let file : Int := ((s.getD 0 ' ').toNat : Int) - 97
    let rank : Int := ((s.getD 1 ' ').toNat : Int) - 49
    if file < 0 ∨ file > 7 ∨ rank < 0 ∨ rank > 7 then .error ()
    else .ok (file + rank * 8).toNat

/-- stoiModel models `std::stoi`: skip leading spaces, optional sign, then
at least one digit (error otherwise); parses the longest digit prefix.
(`std::out_of_range` on huge literals is not modelled; no claim uses
one.) -/
def stoiModel (s : List Char) : Except Unit Int :=
  let s1 := s.dropWhile (fun c => c = ' ')
  let core : List Char → Except Unit Nat := fun cs =>
    let ds := cs.takeWhile Char.isDigit
    if ds = [] then .error ()
    else .ok (ds.foldl (fun n c => n * 10 + (c.toNat - 48)) 0)
  match s1 with
  | '-' :: rest => (core rest).map (fun n => -(n : Int))
  | '+' :: rest => (core rest).map (fun n => (n : Int))
  | _ => (core s1).map (fun n => (n : Int))

/-- parse_board_aux is the character loop of `Board::Impl::parse_board`,
threading the int `square` cursor; on an unknown piece character it
throws, leaving the partially filled boards in place (carried in the
error payload). Negative cursors from malformed inputs are clamped by
`Int.toNat`; the C++ shift there is undefined behaviour and no claim
reaches it. -/
def parse_board_aux : List Char → Int → Position → Except Position Position
  | [], _, pos => .ok pos
  | c :: rest, square, pos =>
    if c = '/' then parse_board_aux rest (square - 16) pos
    else if c.isDigit then parse_board_aux rest (square + ((c.toNat : Int) - 48)) pos
    else
      let color := if c.isUpper then 0 else 1
      let pc := c.toLower
      let t? : Option Nat :=
        if pc = 'p' then some 0 else if pc = 'n' then some 1 else if pc = 'b' then some 2
        else if pc = 'r' then some 3 else if pc = 'q' then some 4 else if pc = 'k' then some 5
        else none
      match t? with
      | none => .error pos
      | some t => parse_board_aux rest (square + 1) (orBB pos (color * 6 + t) (1 <<< square.toNat))

/-- parse_board from Board.cpp: zero the twelve boards, then walk the
board field from A8 (square 56). -/
def parse_board (chars : List Char) (pos : Position) : Except Position Position :=
  parse_board_aux chars 56
    { pos with wp := 0, wn := 0, wb := 0, wr := 0, wq := 0, wk := 0,
               bp := 0, bn := 0, bb2 := 0, br := 0, bq := 0, bk := 0 }

/-- parse_fen is `Board::Impl::parse_fen`. It mutates the live position
field by field (board, side, castling, en passant, clocks, hash,
occupancy); a failure part-way through leaves everything already parsed
in place — the error payload is that mutated position. Castling
characters are not validated: any subset of the characters found among
"KQkq" sets bits, everything else is ignored. Extra tokens beyond the
sixth are ignored. -/
def parse_fen (kb : ZKeys) (pos : Position) (fen : String) : Except Position Position :=
  let toks := splitTokens fen.toList
  let board_part := tokenAt toks 0
  let side_part := tokenAt toks 1
  let castle_part := tokenAt toks 2
  let ep_part := tokenAt toks 3
  let hm_part := tokenAt toks 4
  let fm_part := tokenAt toks 5
  match parse_board board_part pos with
  | .error p => .error p
  | .ok p1 =>
    if side_part.length ≠ 1 then .error p1
    else
      match (if side_part.contains 'w' then some 0
             else if side_part.contains 'b' then some 1 else none) with
      | none => .error p1
      | some side =>
        let cr := (if castle_part.contains 'K' then 0b0001 else 0) |||
          (if castle_part.contains 'Q' then 0b0010 else 0) |||
          (if castle_part.contains 'k' then 0b0100 else 0) |||
          (if castle_part.contains 'q' then 0b1000 else 0)
        let p2 := { p1 with side_to_move := side, castle_rights := cr }
        match string_to_square ep_part with
        | .error _ => .error p2
        | .ok ep =>
          let p3 := { p2 with en_passant_square := ep }
          match stoiModel hm_part with
          | .error _ => .error p3
          | .ok hm =>
            let p4 := { p3 with halfmove_clock := (hm % 65536).toNat }
            match stoiModel fm_part with
            | .error _ => .error p4
            | .ok fm =>
              let p5 := { p4 with fullmove_number := (fm % 4294967296).toNat }
              let p6 := { p5 with zobrist_hash := compute kb p5 }
              .ok (update_occupancy p6)

/-- load_fen from Board.cpp: `impl->parse_fen(fen)`; only the Position is
touched, the undo history is untouched in both outcomes. -/
def load_fen (kb : ZKeys) (b : Board) (fen : String) : Except Board Board :=
  match parse_fen kb b.position fen with
  | .ok p => .ok ⟨p, b.undo_history⟩
  | .error p => .error ⟨p, b.undo_history⟩

/-- exceptValue extracts the carried position (parse_board on the default
board constant never fails). -/
def exceptValue : Except Position Position → Position
  | .ok p => p
  | .error p => p

/-- DEFAULT_BOARD from Board.cpp. -/
def DEFAULT_BOARD : String := "rnbqkbnr/pppppppp/8/8/8/8/PPPPPPPP/RNBQKBNR"

/-- reset from Board.cpp: default board, White to move, full castling
rights, no en passant, clocks 0/1, fresh hash, occupancy rebuilt, undo
history cleared. -/
def reset (kb : ZKeys) (b : Board) : Board :=
  let p1 := exceptValue (parse_board DEFAULT_BOARD.toList b.position)
  let p2 := { p1 with side_to_move := 0, castle_rights := 0b1111, en_passant_square := 64,
                      halfmove_clock := 0, fullmove_number := 1 }
  let p3 := { p2 with zobrist_hash := compute kb p2 }
  ⟨update_occupancy p3, []⟩

/-- kb0 is the all-zero key table used to instantiate witnesses (all
theorems hold for every table). -/
def kb0 : ZKeys := ⟨fun _ _ => 0, fun _ => 0, fun _ => 0, 0⟩

/-- emptyPosition: all fields zero except the en-passant sentinel. -/
def emptyPosition : Position :=
  ⟨0, 0, 0, 0, 0, 0, 0, 0, 0, 0, 0, 0, 0, 0, 0, 0, 0, 64, 0, 1, 0⟩

/-- startBoard is the board after `reset` (the standard starting
position) under the all-zero key table. -/
def startBoard : Board := reset kb0 ⟨emptyPosition, []⟩

end ChessPlusPlus

namespace ChessPlusPlus

/-- XOR reassociation helper. -/
theorem xor_left_comm (a b c : Nat) : a ^^^ (b ^^^ c) = b ^^^ (a ^^^ c) := by
  rw [← Nat.xor_assoc, Nat.xor_comm a b, Nat.xor_assoc]

/-- XOR cancellation helper. -/
theorem xor_cancel_r (x y : Nat) : (x ^^^ y) ^^^ y = x := by
  rw [Nat.xor_assoc, Nat.xor_self, Nat.xor_zero]

/-- Out-of-range board writes do nothing. -/
theorem updBB_of_ge (pos : Position) (i msk : Nat) (h : 12 ≤ i) : updBB pos i msk = pos := by
  rw [updBB]
  repeat rw [if_neg (show ¬_ from by omega)]

/-- updBB updates exactly slot `i` of the flattened board array. -/
theorem boardsList_updBB (pos : Position) (i msk : Nat) (hi : i < 12) :
    boardsList (updBB pos i msk) = (boardsList pos).set i (pieceBB pos i ^^^ msk) := by
  interval_cases i <;> rfl

/-- Reading the updated slot gives the XORed board. -/
theorem pieceBB_updBB_self (pos : Position) (i msk : Nat) (hi : i < 12) :
    pieceBB (updBB pos i msk) i = pieceBB pos i ^^^ msk := by
  interval_cases i <;> rfl

/-- Reading any other slot is unchanged. -/
theorem pieceBB_updBB_ne (pos : Position) (i msk j : Nat) (hne : j ≠ i) :
    pieceBB (updBB pos i msk) j = pieceBB pos j := by
  rcases Nat.lt_or_ge i 12 with hi | hi
  · rw [pieceBB, boardsList_updBB pos i msk hi, pieceBB,
        List.getD_eq_getElem?_getD, List.getElem?_set_ne (by omega), ← List.getD_eq_getElem?_getD]
    rfl
  · rw [updBB_of_ge pos i msk hi]

/-- update_occupancy does not touch the piece boards. -/
theorem pieceBB_update_occupancy (pos : Position) (i : Nat) :
    pieceBB (update_occupancy pos) i = pieceBB pos i := rfl

/-- Toggling bit `s` flips exactly the `s`-th testBit. -/
theorem testBit_toggle (bb s t : Nat) :
    (bb ^^^ (1 <<< s)).testBit t = ((bb.testBit t).xor (decide (s = t))) := by
  rw [Nat.testBit_xor, Nat.one_shiftLeft, Nat.testBit_two_pow]

/-- Two AND-disjoint boards cannot share a set bit. -/
theorem testBit_false_of_disj {a b : Nat} (h : a &&& b = 0) {s : Nat}
    (ha : a.testBit s = true) : b.testBit s = false := by
  have h2 := congrArg (fun x => x.testBit s) h
  simp only [Nat.testBit_and, Nat.zero_testBit, ha, Bool.true_and] at h2
  exact h2

/-- get_piece_at is at most the NONE sentinel 12. -/
theorem get_piece_at_le (pos : Position) (s : Nat) : get_piece_at pos s ≤ 12 := by
  rw [get_piece_at]
  by_cases h0 : (pieceBB pos 0).testBit s = true
  · rw [if_pos h0]; omega
  · rw [if_neg h0]
    by_cases h1 : (pieceBB pos 1).testBit s = true
    · rw [if_pos h1]; omega
    · rw [if_neg h1]
      by_cases h2 : (pieceBB pos 2).testBit s = true
      · rw [if_pos h2]; omega
      · rw [if_neg h2]
        by_cases h3 : (pieceBB pos 3).testBit s = true
        · rw [if_pos h3]; omega
        · rw [if_neg h3]
          by_cases h4 : (pieceBB pos 4).testBit s = true
          · rw [if_pos h4]; omega
          · rw [if_neg h4]
            by_cases h5 : (pieceBB pos 5).testBit s = true
            · rw [if_pos h5]; omega
            · rw [if_neg h5]
              by_cases h6 : (pieceBB pos 6).testBit s = true
              · rw [if_pos h6]; omega
              · rw [if_neg h6]
                by_cases h7 : (pieceBB pos 7).testBit s = true
                · rw [if_pos h7]; omega
                · rw [if_neg h7]
                  by_cases h8 : (pieceBB pos 8).testBit s = true
                  · rw [if_pos h8]; omega
                  · rw [if_neg h8]
                    by_cases h9 : (pieceBB pos 9).testBit s = true
                    · rw [if_pos h9]; omega
                    · rw [if_neg h9]
                      by_cases h10 : (pieceBB pos 10).testBit s = true
                      · rw [if_pos h10]; omega
                      · rw [if_neg h10]
                        by_cases h11 : (pieceBB pos 11).testBit s = true
                        · rw [if_pos h11]; omega
                        · rw [if_neg h11]

/-- get_piece_at either finds no board containing the square (value 12) or
returns the first board index that does. -/
theorem get_piece_at_branches (pos : Position) (s : Nat) :
    ((∀ j, j < 12 → (pieceBB pos j).testBit s = false) ∧ get_piece_at pos s = 12) ∨
    (get_piece_at pos s < 12 ∧ (pieceBB pos (get_piece_at pos s)).testBit s = true ∧
      ∀ j, j < get_piece_at pos s → (pieceBB pos j).testBit s = false) := by
  rw [get_piece_at]
  by_cases h0 : (pieceBB pos 0).testBit s = true
  · rw [if_pos h0]
    exact Or.inr ⟨by omega, h0, fun j hj => by omega⟩
  · rw [if_neg h0]
    by_cases h1 : (pieceBB pos 1).testBit s = true
    · rw [if_pos h1]
      simp only [Bool.not_eq_true] at h0
      exact Or.inr ⟨by omega, h1, fun j hj => by interval_cases j <;> assumption⟩
    · rw [if_neg h1]
      by_cases h2 : (pieceBB pos 2).testBit s = true
      · rw [if_pos h2]
        simp only [Bool.not_eq_true] at h0 h1
        exact Or.inr ⟨by omega, h2, fun j hj => by interval_cases j <;> assumption⟩
      · rw [if_neg h2]
        by_cases h3 : (pieceBB pos 3).testBit s = true
        · rw [if_pos h3]
          simp only [Bool.not_eq_true] at h0 h1 h2
          exact Or.inr ⟨by omega, h3, fun j hj => by interval_cases j <;> assumption⟩
        · rw [if_neg h3]
          by_cases h4 : (pieceBB pos 4).testBit s = true
          · rw [if_pos h4]
            simp only [Bool.not_eq_true] at h0 h1 h2 h3
            exact Or.inr ⟨by omega, h4, fun j hj => by interval_cases j <;> assumption⟩
          · rw [if_neg h4]
            by_cases h5 : (pieceBB pos 5).testBit s = true
            · rw [if_pos h5]
              simp only [Bool.not_eq_true] at h0 h1 h2 h3 h4
              exact Or.inr ⟨by omega, h5, fun j hj => by interval_cases j <;> assumption⟩
            · rw [if_neg h5]
              by_cases h6 : (pieceBB pos 6).testBit s = true
              · rw [if_pos h6]
                simp only [Bool.not_eq_true] at h0 h1 h2 h3 h4 h5
                exact Or.inr ⟨by omega, h6, fun j hj => by interval_cases j <;> assumption⟩
              · rw [if_neg h6]
                by_cases h7 : (pieceBB pos 7).testBit s = true
                · rw [if_pos h7]
                  simp only [Bool.not_eq_true] at h0 h1 h2 h3 h4 h5 h6
                  exact Or.inr ⟨by omega, h7, fun j hj => by interval_cases j <;> assumption⟩
                · rw [if_neg h7]
                  by_cases h8 : (pieceBB pos 8).testBit s = true
                  · rw [if_pos h8]
                    simp only [Bool.not_eq_true] at h0 h1 h2 h3 h4 h5 h6 h7
                    exact Or.inr ⟨by omega, h8, fun j hj => by interval_cases j <;> assumption⟩
                  · rw [if_neg h8]
                    by_cases h9 : (pieceBB pos 9).testBit s = true
                    · rw [if_pos h9]
                      simp only [Bool.not_eq_true] at h0 h1 h2 h3 h4 h5 h6 h7 h8
                      exact Or.inr ⟨by omega, h9, fun j hj => by interval_cases j <;> assumption⟩
                    · rw [if_neg h9]
                      by_cases h10 : (pieceBB pos 10).testBit s = true
                      · rw [if_pos h10]
                        simp only [Bool.not_eq_true] at h0 h1 h2 h3 h4 h5 h6 h7 h8 h9
                        exact Or.inr ⟨by omega, h10, fun j hj => by interval_cases j <;> assumption⟩
                      · rw [if_neg h10]
                        by_cases h11 : (pieceBB pos 11).testBit s = true
                        · rw [if_pos h11]
                          simp only [Bool.not_eq_true] at h0 h1 h2 h3 h4 h5 h6 h7 h8 h9 h10
                          exact Or.inr ⟨by omega, h11, fun j hj => by interval_cases j <;> assumption⟩
                        · rw [if_neg h11]
                          simp only [Bool.not_eq_true] at h0 h1 h2 h3 h4 h5 h6 h7 h8 h9 h10 h11
                          exact Or.inl ⟨fun j hj => by interval_cases j <;> assumption, rfl⟩

/-- If board `i` holds the square and no other board does, get_piece_at
returns `i`. -/
theorem get_piece_at_of (pos : Position) (s i : Nat) (hi : i < 12)
    (hset : (pieceBB pos i).testBit s = true)
    (hothers : ∀ j, j < 12 → j ≠ i → (pieceBB pos j).testBit s = false) :
    get_piece_at pos s = i := by
  rcases get_piece_at_branches pos s with ⟨hall, _⟩ | ⟨hlt, hbit, _⟩
  · rw [hall i hi] at hset; exact absurd hset (by simp)
  · by_contra hne
    rw [hothers _ hlt (fun e => hne (by omega))] at hbit
    exact absurd hbit (by simp)

/-- The board returned by get_piece_at holds the square. -/
theorem testBit_of_get_piece_at {pos : Position} {s i : Nat}
    (h : get_piece_at pos s = i) (hi : i < 12) : (pieceBB pos i).testBit s = true := by
  rcases get_piece_at_branches pos s with ⟨_, h12⟩ | ⟨_, hbit, _⟩
  · omega
  · rwa [h] at hbit

/-- An empty square (NONE) is on no board. -/
theorem none_of_get_piece_at {pos : Position} {s : Nat}
    (h : get_piece_at pos s = 12) : ∀ j, j < 12 → (pieceBB pos j).testBit s = false := by
  rcases get_piece_at_branches pos s with ⟨hall, _⟩ | ⟨hlt, _, _⟩
  · exact hall
  · omega

end ChessPlusPlus

open ChessPlusPlus

namespace ChessPlusPlus

/-- WF captures spec §3 invariants 1 (disjoint boards, derived
occupancies) plus in-range side-to-move and 64-bit boards. -/
def WF (pos : Position) : Prop :=
  (∀ i, i < 12 → pieceBB pos i < 2 ^ 64) ∧
  (∀ i j, i < 12 → j < 12 → i ≠ j → pieceBB pos i &&& pieceBB pos j = 0) ∧
  pos.side_to_move < 2 ∧
  pos.occupancy_white = pos.wp ||| pos.wn ||| pos.wb ||| pos.wr ||| pos.wq ||| pos.wk ∧
  pos.occupancy_black = pos.bp ||| pos.bn ||| pos.bb2 ||| pos.br ||| pos.bq ||| pos.bk ∧
  pos.occupancy_all =
    (pos.wp ||| pos.wn ||| pos.wb ||| pos.wr ||| pos.wq ||| pos.wk) |||
      (pos.bp ||| pos.bn ||| pos.bb2 ||| pos.br ||| pos.bq ||| pos.bk)

/-- CastleOk: a set castling right implies the matching king actually
stands on its home square (true in any position reachable from a real
game; without it the C++ castling code indexes pieces[2][...], which is
undefined behaviour). -/
def CastleOk (pos : Position) : Prop :=
  ((pos.castle_rights &&& 1 ≠ 0 ∨ pos.castle_rights &&& 2 ≠ 0) → get_piece_at pos 4 = 5) ∧
  ((pos.castle_rights &&& 4 ≠ 0 ∨ pos.castle_rights &&& 8 ≠ 0) → get_piece_at pos 60 = 11)

theorem updCT_eq (pos : Position) (c t s : Nat) :
    updCT pos c t s = updBB pos (c * 6 + t) (1 <<< s) := rfl

theorem apply_move_pieceBB (kb : ZKeys) (b : Board) (m : Move) (i : Nat) :
    pieceBB (apply_move kb b m).position i = pieceBB (boards_after b.position m) i := rfl

theorem apply_move_undo (kb : ZKeys) (b : Board) (m : Move) :
    (apply_move kb b m).undo_history =
      ⟨m, get_piece_at b.position m.toSq, b.position.castle_rights,
        b.position.en_passant_square, b.position.halfmove_clock,
        b.position.zobrist_hash⟩ :: b.undo_history := rfl

theorem apply_move_side (kb : ZKeys) (b : Board) (m : Move) :
    (apply_move kb b m).position.side_to_move =
      (if b.position.side_to_move = 0 then 1 else 0) := rfl

end ChessPlusPlus

namespace ChessPlusPlus

theorem boards_after_flag0 (pos : Position) (m : Move) (hf : m.flag = 0)
    (hq : get_piece_at pos m.toSq = 12) :
    boards_after pos m =
      updBB (updBB pos (get_piece_at pos m.fromSq) (1 <<< m.fromSq))
        (get_piece_at pos m.fromSq) (1 <<< m.toSq) := by
  simp only [boards_after, hf, hq, updCT_eq, get_piece_color, get_piece_type]
  norm_num
  rw [show get_piece_at pos m.fromSq / 6 * 6 + get_piece_at pos m.fromSq % 6 =
      get_piece_at pos m.fromSq from by omega]

end ChessPlusPlus

namespace ChessPlusPlus

theorem boards_after_flag1 (pos : Position) (m : Move) (hf : m.flag = 1)
    (hq : get_piece_at pos m.toSq < 12) :
    boards_after pos m =
      updBB (updBB (updBB pos (get_piece_at pos m.toSq) (1 <<< m.toSq))
          (get_piece_at pos m.fromSq) (1 <<< m.fromSq))
        (get_piece_at pos m.fromSq) (1 <<< m.toSq) := by
  simp only [boards_after, hf, updCT_eq, get_piece_color, get_piece_type]
  norm_num
  rw [if_neg (show ¬get_piece_at pos m.toSq = 12 by omega)]
  rw [show get_piece_at pos m.fromSq / 6 * 6 + get_piece_at pos m.fromSq % 6 =
      get_piece_at pos m.fromSq from by omega,
      show get_piece_at pos m.toSq / 6 * 6 + get_piece_at pos m.toSq % 6 =
      get_piece_at pos m.toSq from by omega]

theorem boards_after_flag2 (pos : Position) (m : Move) (hf : m.flag = 2)
    (hmi : get_piece_at pos m.fromSq < 12) :
    boards_after pos m =
      updBB (updBB
        (updBB (updBB
          (if get_piece_at pos m.toSq ≠ 12 then
            updBB pos (get_piece_at pos m.toSq) (1 <<< m.toSq) else pos)
          (get_piece_at pos m.fromSq) (1 <<< m.fromSq))
          (get_piece_at pos m.fromSq) (1 <<< m.toSq))
        (get_piece_at pos m.fromSq / 6 * 6) (1 <<< m.toSq))
        (get_piece_at pos m.fromSq / 6 * 6 + m.promotion) (1 <<< m.toSq) := by
  simp only [boards_after, hf, updCT_eq, get_piece_color, get_piece_type]
  norm_num
  rw [show get_piece_at pos m.fromSq / 6 * 6 + get_piece_at pos m.fromSq % 6 =
      get_piece_at pos m.fromSq from by omega,
      show get_piece_at pos m.toSq / 6 * 6 + get_piece_at pos m.toSq % 6 =
      get_piece_at pos m.toSq from by omega]

end ChessPlusPlus

namespace ChessPlusPlus

theorem restore_boards_flag0 (pos : Position) (u : MoveUndo) (hf : u.move.flag = 0)
    (hq : u.captured_piece = 12) :
    restore_boards pos u =
      updBB (updBB pos (get_piece_at pos u.move.toSq) (1 <<< u.move.toSq))
        (get_piece_at pos u.move.toSq) (1 <<< u.move.fromSq) := by
  simp only [restore_boards, hf, hq, updCT_eq, get_piece_color, get_piece_type]
  norm_num
  rw [show get_piece_at pos u.move.toSq / 6 * 6 + get_piece_at pos u.move.toSq % 6 =
      get_piece_at pos u.move.toSq from by omega]

theorem restore_boards_flag1 (pos : Position) (u : MoveUndo) (hf : u.move.flag = 1)
    (hq : u.captured_piece < 12) :
    restore_boards pos u =
      updBB (updBB (updBB pos u.captured_piece (1 <<< u.move.toSq))
          (get_piece_at pos u.move.toSq) (1 <<< u.move.toSq))
        (get_piece_at pos u.move.toSq) (1 <<< u.move.fromSq) := by
  simp only [restore_boards, hf, updCT_eq, get_piece_color, get_piece_type]
  norm_num
  rw [if_neg (show ¬u.captured_piece = 12 by omega)]
  rw [show get_piece_at pos u.move.toSq / 6 * 6 + get_piece_at pos u.move.toSq % 6 =
      get_piece_at pos u.move.toSq from by omega,
      show u.captured_piece / 6 * 6 + u.captured_piece % 6 = u.captured_piece from by omega]

theorem restore_boards_flag2 (pos : Position) (u : MoveUndo) (hf : u.move.flag = 2) :
    restore_boards pos u =
      updBB (updBB
        (updBB (updBB
          (if u.captured_piece ≠ 12 then
            updBB pos u.captured_piece (1 <<< u.move.toSq) else pos)
          (get_piece_at pos u.move.toSq) (1 <<< u.move.toSq))
          (get_piece_at pos u.move.toSq) (1 <<< u.move.fromSq))
        (get_piece_at pos u.move.toSq / 6 * 6 + u.move.promotion) (1 <<< u.move.fromSq))
        (get_piece_at pos u.move.toSq / 6 * 6) (1 <<< u.move.fromSq) := by
  simp only [restore_boards, hf, updCT_eq, get_piece_color, get_piece_type]
  norm_num
  rw [show get_piece_at pos u.move.toSq / 6 * 6 + get_piece_at pos u.move.toSq % 6 =
      get_piece_at pos u.move.toSq from by omega,
      show u.captured_piece / 6 * 6 + u.captured_piece % 6 = u.captured_piece from by omega]

end ChessPlusPlus

namespace ChessPlusPlus

theorem boards_after_castle_wk (pos : Position) (m : Move) (hf : m.flag = 3)
    (hfrom : m.fromSq = 4) (hto : m.toSq = 6)
    (hk : get_piece_at pos 4 = 5) (hq : get_piece_at pos 6 = 12) :
    boards_after pos m =
      updBB (updBB (updBB (updBB pos 5 (1 <<< 4)) 5 (1 <<< 6)) 3 (1 <<< 7)) 3 (1 <<< 5) := by
  simp only [boards_after, hf, hfrom, hto, hk, hq, updCT_eq, get_piece_color, get_piece_type]
  norm_num

theorem boards_after_castle_wq (pos : Position) (m : Move) (hf : m.flag = 3)
    (hfrom : m.fromSq = 4) (hto : m.toSq = 2)
    (hk : get_piece_at pos 4 = 5) (hq : get_piece_at pos 2 = 12) :
    boards_after pos m =
      updBB (updBB (updBB (updBB pos 5 (1 <<< 4)) 5 (1 <<< 2)) 3 (1 <<< 0)) 3 (1 <<< 3) := by
  simp only [boards_after, hf, hfrom, hto, hk, hq, updCT_eq, get_piece_color, get_piece_type]
  norm_num

theorem boards_after_castle_bk (pos : Position) (m : Move) (hf : m.flag = 3)
    (hfrom : m.fromSq = 60) (hto : m.toSq = 62)
    (hk : get_piece_at pos 60 = 11) (hq : get_piece_at pos 62 = 12) :
    boards_after pos m =
      updBB (updBB (updBB (updBB pos 11 (1 <<< 60)) 11 (1 <<< 62)) 9 (1 <<< 63)) 9 (1 <<< 61) := by
  simp only [boards_after, hf, hfrom, hto, hk, hq, updCT_eq, get_piece_color, get_piece_type]
  norm_num

theorem boards_after_castle_bq (pos : Position) (m : Move) (hf : m.flag = 3)
    (hfrom : m.fromSq = 60) (hto : m.toSq = 58)
    (hk : get_piece_at pos 60 = 11) (hq : get_piece_at pos 58 = 12) :
    boards_after pos m =
      updBB (updBB (updBB (updBB pos 11 (1 <<< 60)) 11 (1 <<< 58)) 9 (1 <<< 56)) 9 (1 <<< 59) := by
  simp only [boards_after, hf, hfrom, hto, hk, hq, updCT_eq, get_piece_color, get_piece_type]
  norm_num

theorem restore_boards_castle_k6 (pos : Position) (u : MoveUndo) (hf : u.move.flag = 3)
    (hto : u.move.toSq = 6) (hq : u.captured_piece = 12) :
    restore_boards pos u =
      updBB (updBB (updBB (updBB pos (get_piece_at pos 6) (1 <<< 6))
        (get_piece_at pos 6) (1 <<< u.move.fromSq)) 3 (1 <<< 5)) 3 (1 <<< 7) := by
  simp only [restore_boards, hf, hto, hq, updCT_eq, get_piece_color, get_piece_type]
  norm_num
  rw [show get_piece_at pos 6 / 6 * 6 + get_piece_at pos 6 % 6 = get_piece_at pos 6 from by omega]

theorem restore_boards_castle_k2 (pos : Position) (u : MoveUndo) (hf : u.move.flag = 3)
    (hto : u.move.toSq = 2) (hq : u.captured_piece = 12) :
    restore_boards pos u =
      updBB (updBB (updBB (updBB pos (get_piece_at pos 2) (1 <<< 2))
        (get_piece_at pos 2) (1 <<< u.move.fromSq)) 3 (1 <<< 3)) 3 (1 <<< 0) := by
  simp only [restore_boards, hf, hto, hq, updCT_eq, get_piece_color, get_piece_type]
  norm_num
  rw [show get_piece_at pos 2 / 6 * 6 + get_piece_at pos 2 % 6 = get_piece_at pos 2 from by omega]

theorem restore_boards_castle_k62 (pos : Position) (u : MoveUndo) (hf : u.move.flag = 3)
    (hto : u.move.toSq = 62) (hq : u.captured_piece = 12) :
    restore_boards pos u =
      updBB (updBB (updBB (updBB pos (get_piece_at pos 62) (1 <<< 62))
        (get_piece_at pos 62) (1 <<< u.move.fromSq)) 9 (1 <<< 61)) 9 (1 <<< 63) := by
  simp only [restore_boards, hf, hto, hq, updCT_eq, get_piece_color, get_piece_type]
  norm_num
  rw [show get_piece_at pos 62 / 6 * 6 + get_piece_at pos 62 % 6 = get_piece_at pos 62 from by omega]

theorem restore_boards_castle_k58 (pos : Position) (u : MoveUndo) (hf : u.move.flag = 3)
    (hto : u.move.toSq = 58) (hq : u.captured_piece = 12) :
    restore_boards pos u =
      updBB (updBB (updBB (updBB pos (get_piece_at pos 58) (1 <<< 58))
        (get_piece_at pos 58) (1 <<< u.move.fromSq)) 9 (1 <<< 59)) 9 (1 <<< 56) := by
  simp only [restore_boards, hf, hto, hq, updCT_eq, get_piece_color, get_piece_type]
  norm_num
  rw [show get_piece_at pos 58 / 6 * 6 + get_piece_at pos 58 % 6 = get_piece_at pos 58 from by omega]

end ChessPlusPlus

namespace ChessPlusPlus

attribute [ext] Position Board

theorem Position.eq_of_parts (a b : Position) (h : ∀ j, j < 12 → pieceBB a j = pieceBB b j)
    (h13 : a.occupancy_white = b.occupancy_white)
    (h14 : a.occupancy_black = b.occupancy_black)
    (h15 : a.occupancy_all = b.occupancy_all)
    (h16 : a.side_to_move = b.side_to_move)
    (h17 : a.castle_rights = b.castle_rights)
    (h18 : a.en_passant_square = b.en_passant_square)
    (h19 : a.halfmove_clock = b.halfmove_clock)
    (h20 : a.fullmove_number = b.fullmove_number)
    (h21 : a.zobrist_hash = b.zobrist_hash) : a = b := by
  ext
  · exact h 0 (by omega)
  · exact h 1 (by omega)
  · exact h 2 (by omega)
  · exact h 3 (by omega)
  · exact h 4 (by omega)
  · exact h 5 (by omega)
  · exact h 6 (by omega)
  · exact h 7 (by omega)
  · exact h 8 (by omega)
  · exact h 9 (by omega)
  · exact h 10 (by omega)
  · exact h 11 (by omega)
  · exact h13
  · exact h14
  · exact h15
  · exact h16
  · exact h17
  · exact h18
  · exact h19
  · exact h20
  · exact h21

end ChessPlusPlus

namespace ChessPlusPlus

theorem restore_eq_of (kb : ZKeys) (b : Board) (m : Move) (F : Position)
    (hside : b.position.side_to_move < 2)
    (hw : b.position.occupancy_white =
      b.position.wp ||| b.position.wn ||| b.position.wb ||| b.position.wr |||
        b.position.wq ||| b.position.wk)
    (hbl : b.position.occupancy_black =
      b.position.bp ||| b.position.bn ||| b.position.bb2 ||| b.position.br |||
        b.position.bq ||| b.position.bk)
    (hall : b.position.occupancy_all =
      (b.position.wp ||| b.position.wn ||| b.position.wb ||| b.position.wr |||
        b.position.wq ||| b.position.wk) |||
      (b.position.bp ||| b.position.bn ||| b.position.bb2 ||| b.position.br |||
        b.position.bq ||| b.position.bk))
    (hrb : restore_boards (apply_move kb b m).position
      ⟨m, get_piece_at b.position m.toSq, b.position.castle_rights,
        b.position.en_passant_square, b.position.halfmove_clock, b.position.zobrist_hash⟩ = F)
    (hfinal : ∀ j, j < 12 → pieceBB F j = pieceBB b.position j) :
    restore_from_history (apply_move kb b m) = b := by
  have hside01 : b.position.side_to_move = 0 ∨ b.position.side_to_move = 1 := by omega
  show Board.mk _ _ = b
  have hpos : update_occupancy
      { restore_boards (apply_move kb b m).position
          ⟨m, get_piece_at b.position m.toSq, b.position.castle_rights,
            b.position.en_passant_square, b.position.halfmove_clock, b.position.zobrist_hash⟩ with
        zobrist_hash := b.position.zobrist_hash
        castle_rights := b.position.castle_rights
        en_passant_square := b.position.en_passant_square
        side_to_move := (if (apply_move kb b m).position.side_to_move = 0 then 1 else 0)
        halfmove_clock := b.position.halfmove_clock
        fullmove_number :=
          if (if (apply_move kb b m).position.side_to_move = 0 then 1 else 0) = 0
          then (apply_move kb b m).position.fullmove_number - 1
          else (apply_move kb b m).position.fullmove_number } = b.position := by
    rw [hrb]
    apply Position.eq_of_parts
    · exact fun j hj => hfinal j hj
    · show pieceBB F 0 ||| pieceBB F 1 ||| pieceBB F 2 ||| pieceBB F 3 ||| pieceBB F 4 ||| pieceBB F 5 =
        b.position.occupancy_white
      rw [hfinal 0 (by omega), hfinal 1 (by omega), hfinal 2 (by omega), hfinal 3 (by omega),
          hfinal 4 (by omega), hfinal 5 (by omega), hw]
      rfl
    · show pieceBB F 6 ||| pieceBB F 7 ||| pieceBB F 8 ||| pieceBB F 9 ||| pieceBB F 10 ||| pieceBB F 11 =
        b.position.occupancy_black
      rw [hfinal 6 (by omega), hfinal 7 (by omega), hfinal 8 (by omega), hfinal 9 (by omega),
          hfinal 10 (by omega), hfinal 11 (by omega), hbl]
      rfl
    · show (pieceBB F 0 ||| pieceBB F 1 ||| pieceBB F 2 ||| pieceBB F 3 ||| pieceBB F 4 ||| pieceBB F 5) |||
        (pieceBB F 6 ||| pieceBB F 7 ||| pieceBB F 8 ||| pieceBB F 9 ||| pieceBB F 10 ||| pieceBB F 11) =
        b.position.occupancy_all
      rw [hfinal 0 (by omega), hfinal 1 (by omega), hfinal 2 (by omega), hfinal 3 (by omega),
          hfinal 4 (by omega), hfinal 5 (by omega), hfinal 6 (by omega), hfinal 7 (by omega),
          hfinal 8 (by omega), hfinal 9 (by omega), hfinal 10 (by omega), hfinal 11 (by omega), hall]
      rfl
    · show (if (if b.position.side_to_move = 0 then 1 else 0) = 0 then 1 else 0) =
        b.position.side_to_move
      rcases hside01 with h | h <;> simp [h]
    · rfl
    · rfl
    · rfl
    · show (if (if (if b.position.side_to_move = 0 then 1 else 0) = 0 then 1 else 0) = 0
        then (if (if b.position.side_to_move = 0 then 1 else 0) = 1
              then b.position.fullmove_number + 1 else b.position.fullmove_number) - 1
        else (if (if b.position.side_to_move = 0 then 1 else 0) = 1
              then b.position.fullmove_number + 1 else b.position.fullmove_number)) =
        b.position.fullmove_number
      rcases hside01 with h | h <;> simp [h]
    · rfl
  rw [hpos]

theorem restore_apply_flag0 (kb : ZKeys) (b : Board) (m : Move) (mi : Nat)
    (hwf : WF b.position) (hf : m.flag = 0)
    (hmi : get_piece_at b.position m.fromSq = mi) (hmilt : mi < 12)
    (hq : get_piece_at b.position m.toSq = 12) :
    restore_from_history (apply_move kb b m) = b := by
  obtain ⟨hbd, hdisj, hside, hw, hbl, hall⟩ := hwf
  have hft : m.fromSq ≠ m.toSq := fun e => by rw [e, hq] at hmi; omega
  have hba : boards_after b.position m =
      updBB (updBB b.position mi (1 <<< m.fromSq)) mi (1 <<< m.toSq) := by
    rw [boards_after_flag0 b.position m hf hq, hmi]
  have hclear := none_of_get_piece_at hq
  have hAto : get_piece_at (boards_after b.position m) m.toSq = mi := by
    apply get_piece_at_of _ _ _ hmilt
    · rw [hba, pieceBB_updBB_self _ _ _ hmilt, pieceBB_updBB_self _ _ _ hmilt,
          testBit_toggle, testBit_toggle, hclear mi hmilt]
      simp [hft]
    · intro j hj hne
      rw [hba, pieceBB_updBB_ne _ _ _ _ hne, pieceBB_updBB_ne _ _ _ _ hne, hclear j hj]
  apply restore_eq_of kb b m
    (updBB (updBB (apply_move kb b m).position mi (1 <<< m.toSq)) mi (1 <<< m.fromSq))
    hside hw hbl hall
  · rw [restore_boards_flag0 _ _ hf hq]
    have hAto2 : get_piece_at (apply_move kb b m).position m.toSq = mi := hAto
    rw [hAto2]
  · intro j hj
    by_cases hjm : j = mi
    · subst hjm
      rw [pieceBB_updBB_self _ _ _ hj, pieceBB_updBB_self _ _ _ hj,
          apply_move_pieceBB, hba, pieceBB_updBB_self _ _ _ hj, pieceBB_updBB_self _ _ _ hj,
          xor_cancel_r, xor_cancel_r]
    · rw [pieceBB_updBB_ne _ _ _ _ hjm, pieceBB_updBB_ne _ _ _ _ hjm,
          apply_move_pieceBB, hba, pieceBB_updBB_ne _ _ _ _ hjm, pieceBB_updBB_ne _ _ _ _ hjm]

end ChessPlusPlus

namespace ChessPlusPlus

theorem restore_apply_flag1 (kb : ZKeys) (b : Board) (m : Move) (mi q : Nat)
    (hwf : WF b.position) (hf : m.flag = 1)
    (hmi : get_piece_at b.position m.fromSq = mi) (hmilt : mi < 12)
    (hq : get_piece_at b.position m.toSq = q) (hqlt : q < 12) (hqne : q ≠ mi) :
    restore_from_history (apply_move kb b m) = b := by
  obtain ⟨hbd, hdisj, hside, hw, hbl, hall⟩ := hwf
  have hft : m.fromSq ≠ m.toSq := fun e => by rw [e, hq] at hmi; omega
  have hqbit : (pieceBB b.position q).testBit m.toSq = true := testBit_of_get_piece_at hq hqlt
  have hclear : ∀ j, j < 12 → j ≠ q → (pieceBB b.position j).testBit m.toSq = false :=
    fun j hj hne => testBit_false_of_disj (hdisj q j hqlt hj (fun e => hne e.symm)) hqbit
  have hba : boards_after b.position m =
      updBB (updBB (updBB b.position q (1 <<< m.toSq)) mi (1 <<< m.fromSq)) mi (1 <<< m.toSq) := by
    rw [boards_after_flag1 b.position m hf (by omega), hmi, hq]
  have hAto : get_piece_at (boards_after b.position m) m.toSq = mi := by
    apply get_piece_at_of _ _ _ hmilt
    · rw [hba, pieceBB_updBB_self _ _ _ hmilt, pieceBB_updBB_self _ _ _ hmilt,
          pieceBB_updBB_ne _ _ _ _ hqne.symm,
          testBit_toggle, testBit_toggle, hclear mi hmilt hqne.symm]
      simp [hft]
    · intro j hj hne
      rw [hba, pieceBB_updBB_ne _ _ _ _ hne, pieceBB_updBB_ne _ _ _ _ hne]
      by_cases hjq : j = q
      · subst hjq
        rw [pieceBB_updBB_self _ _ _ hj, testBit_toggle, hqbit]
        simp
      · rw [pieceBB_updBB_ne _ _ _ _ hjq, hclear j hj hjq]
  apply restore_eq_of kb b m
    (updBB (updBB (updBB (apply_move kb b m).position q (1 <<< m.toSq)) mi (1 <<< m.toSq))
      mi (1 <<< m.fromSq))
    hside hw hbl hall
  · rw [restore_boards_flag1 _ _ hf (hq.trans_lt hqlt)]
    have hAto2 : get_piece_at (apply_move kb b m).position m.toSq = mi := hAto
    rw [hAto2, hq]
  · intro j hj
    by_cases hjm : j = mi
    · subst hjm
      rw [pieceBB_updBB_self _ _ _ hj, pieceBB_updBB_self _ _ _ hj,
          pieceBB_updBB_ne _ _ _ _ hqne.symm,
          apply_move_pieceBB, hba, pieceBB_updBB_self _ _ _ hj, pieceBB_updBB_self _ _ _ hj,
          pieceBB_updBB_ne _ _ _ _ hqne.symm, xor_cancel_r, xor_cancel_r]
    · rw [pieceBB_updBB_ne _ _ _ _ hjm, pieceBB_updBB_ne _ _ _ _ hjm]
      by_cases hjq : j = q
      · subst hjq
        rw [pieceBB_updBB_self _ _ _ hj, apply_move_pieceBB, hba,
            pieceBB_updBB_ne _ _ _ _ hjm, pieceBB_updBB_ne _ _ _ _ hjm,
            pieceBB_updBB_self _ _ _ hj, xor_cancel_r]
      · rw [pieceBB_updBB_ne _ _ _ _ hjq, apply_move_pieceBB, hba,
            pieceBB_updBB_ne _ _ _ _ hjm, pieceBB_updBB_ne _ _ _ _ hjm,
            pieceBB_updBB_ne _ _ _ _ hjq]

end ChessPlusPlus

namespace ChessPlusPlus

theorem restore_apply_flag2 (kb : ZKeys) (b : Board) (m : Move) (mi : Nat)
    (hwf : WF b.position) (hf : m.flag = 2)
    (hmi : get_piece_at b.position m.fromSq = mi) (hmilt : mi < 12) (hmi0 : mi % 6 = 0)
    (hp1 : 1 ≤ m.promotion) (hp4 : m.promotion ≤ 4)
    (hq : get_piece_at b.position m.toSq = 12) :
    restore_from_history (apply_move kb b m) = b := by
  obtain ⟨hbd, hdisj, hside, hw, hbl, hall⟩ := hwf
  have hft : m.fromSq ≠ m.toSq := fun e => by rw [e, hq] at hmi; omega
  have hpilt : mi + m.promotion < 12 := by omega
  have hpine : mi + m.promotion ≠ mi := by omega
  have hclear := none_of_get_piece_at hq
  have hba : boards_after b.position m =
      updBB (updBB (updBB (updBB b.position mi (1 <<< m.fromSq)) mi (1 <<< m.toSq))
        mi (1 <<< m.toSq)) (mi + m.promotion) (1 <<< m.toSq) := by
    rw [boards_after_flag2 b.position m hf (by omega), hmi, if_neg (by rw [hq]; omega),
        show mi / 6 * 6 = mi from by omega]
  have hAto : get_piece_at (boards_after b.position m) m.toSq = mi + m.promotion := by
    apply get_piece_at_of _ _ _ hpilt
    · rw [hba, pieceBB_updBB_self _ _ _ hpilt, pieceBB_updBB_ne _ _ _ _ hpine,
          pieceBB_updBB_ne _ _ _ _ hpine, pieceBB_updBB_ne _ _ _ _ hpine,
          testBit_toggle, hclear _ hpilt]
      simp
    · intro j hj hne
      rw [hba, pieceBB_updBB_ne _ _ _ _ hne]
      by_cases hjm : j = mi
      · subst hjm
        rw [pieceBB_updBB_self _ _ _ hj, pieceBB_updBB_self _ _ _ hj,
            pieceBB_updBB_self _ _ _ hj, testBit_toggle, testBit_toggle, testBit_toggle,
            hclear j hj]
        simp [hft]
      · rw [pieceBB_updBB_ne _ _ _ _ hjm, pieceBB_updBB_ne _ _ _ _ hjm,
            pieceBB_updBB_ne _ _ _ _ hjm, hclear j hj]
  apply restore_eq_of kb b m
    (updBB (updBB (updBB (updBB (apply_move kb b m).position
      (mi + m.promotion) (1 <<< m.toSq)) (mi + m.promotion) (1 <<< m.fromSq))
      (mi + m.promotion) (1 <<< m.fromSq)) mi (1 <<< m.fromSq))
    hside hw hbl hall
  · rw [restore_boards_flag2 _ _ hf]
    have hAto2 : get_piece_at (apply_move kb b m).position m.toSq = mi + m.promotion := hAto
    rw [hAto2, if_neg (by rw [show (⟨m, get_piece_at b.position m.toSq, b.position.castle_rights,
          b.position.en_passant_square, b.position.halfmove_clock,
          b.position.zobrist_hash⟩ : MoveUndo).captured_piece = 12 from hq]; omega),
        show (mi + m.promotion) / 6 * 6 = mi from by omega]
  · intro j hj
    by_cases hjp : j = mi + m.promotion
    · subst hjp
      rw [pieceBB_updBB_ne _ _ _ _ hpine, pieceBB_updBB_self _ _ _ hj,
          pieceBB_updBB_self _ _ _ hj, pieceBB_updBB_self _ _ _ hj,
          apply_move_pieceBB, hba, pieceBB_updBB_self _ _ _ hj,
          pieceBB_updBB_ne _ _ _ _ hpine, pieceBB_updBB_ne _ _ _ _ hpine,
          pieceBB_updBB_ne _ _ _ _ hpine, xor_cancel_r, xor_cancel_r]
    · by_cases hjm : j = mi
      · subst hjm
        rw [pieceBB_updBB_self _ _ _ hj, pieceBB_updBB_ne _ _ _ _ hjp,
            pieceBB_updBB_ne _ _ _ _ hjp, pieceBB_updBB_ne _ _ _ _ hjp,
            apply_move_pieceBB, hba, pieceBB_updBB_ne _ _ _ _ hjp,
            pieceBB_updBB_self _ _ _ hj, pieceBB_updBB_self _ _ _ hj,
            pieceBB_updBB_self _ _ _ hj, xor_cancel_r, xor_cancel_r]
      · rw [pieceBB_updBB_ne _ _ _ _ hjm, pieceBB_updBB_ne _ _ _ _ hjp,
            pieceBB_updBB_ne _ _ _ _ hjp, pieceBB_updBB_ne _ _ _ _ hjp,
            apply_move_pieceBB, hba, pieceBB_updBB_ne _ _ _ _ hjp,
            pieceBB_updBB_ne _ _ _ _ hjm, pieceBB_updBB_ne _ _ _ _ hjm,
            pieceBB_updBB_ne _ _ _ _ hjm]

end ChessPlusPlus

namespace ChessPlusPlus

theorem restore_apply_flag2cap (kb : ZKeys) (b : Board) (m : Move) (mi q : Nat)
    (hwf : WF b.position) (hf : m.flag = 2)
    (hmi : get_piece_at b.position m.fromSq = mi) (hmilt : mi < 12) (hmi0 : mi % 6 = 0)
    (hp1 : 1 ≤ m.promotion) (hp4 : m.promotion ≤ 4)
    (hq : get_piece_at b.position m.toSq = q) (hqlt : q < 12) (hqc : q / 6 ≠ mi / 6) :
    restore_from_history (apply_move kb b m) = b := by
  obtain ⟨hbd, hdisj, hside, hw, hbl, hall⟩ := hwf
  have hqmi : q ≠ mi := fun e => hqc (by rw [e])
  have hqpi : q ≠ mi + m.promotion := fun e => by
    have : (mi + m.promotion) / 6 = mi / 6 := by omega
    exact hqc (by rw [e, this])
  have hft : m.fromSq ≠ m.toSq := fun e => by rw [e, hq] at hmi; omega
  have hpilt : mi + m.promotion < 12 := by omega
  have hpine : mi + m.promotion ≠ mi := by omega
  have hqbit : (pieceBB b.position q).testBit m.toSq = true := testBit_of_get_piece_at hq hqlt
  have hclear : ∀ j, j < 12 → j ≠ q → (pieceBB b.position j).testBit m.toSq = false :=
    fun j hj hne => testBit_false_of_disj (hdisj q j hqlt hj (fun e => hne e.symm)) hqbit
  have hba : boards_after b.position m =
      updBB (updBB (updBB (updBB (updBB b.position q (1 <<< m.toSq))
        mi (1 <<< m.fromSq)) mi (1 <<< m.toSq))
        mi (1 <<< m.toSq)) (mi + m.promotion) (1 <<< m.toSq) := by
    rw [boards_after_flag2 b.position m hf (by omega), hmi, hq, if_pos (by omega),
        show mi / 6 * 6 = mi from by omega]
  have hAto : get_piece_at (boards_after b.position m) m.toSq = mi + m.promotion := by
    apply get_piece_at_of _ _ _ hpilt
    · rw [hba, pieceBB_updBB_self _ _ _ hpilt, pieceBB_updBB_ne _ _ _ _ hpine,
          pieceBB_updBB_ne _ _ _ _ hpine, pieceBB_updBB_ne _ _ _ _ hpine,
          pieceBB_updBB_ne _ _ _ _ hqpi.symm,
          testBit_toggle, hclear _ hpilt hqpi.symm]
      simp
    · intro j hj hne
      rw [hba, pieceBB_updBB_ne _ _ _ _ hne]
      by_cases hjm : j = mi
      · subst hjm
        rw [pieceBB_updBB_self _ _ _ hj, pieceBB_updBB_self _ _ _ hj,
            pieceBB_updBB_self _ _ _ hj, pieceBB_updBB_ne _ _ _ _ hqmi.symm,
            testBit_toggle, testBit_toggle, testBit_toggle, hclear j hj hqmi.symm]
        simp [hft]
      · by_cases hjq : j = q
        · subst hjq
          rw [pieceBB_updBB_ne _ _ _ _ hjm, pieceBB_updBB_ne _ _ _ _ hjm,
              pieceBB_updBB_ne _ _ _ _ hjm, pieceBB_updBB_self _ _ _ hj,
              testBit_toggle, hqbit]
          simp
        · rw [pieceBB_updBB_ne _ _ _ _ hjm, pieceBB_updBB_ne _ _ _ _ hjm,
              pieceBB_updBB_ne _ _ _ _ hjm, pieceBB_updBB_ne _ _ _ _ hjq, hclear j hj hjq]
  apply restore_eq_of kb b m
    (updBB (updBB (updBB (updBB (updBB (apply_move kb b m).position q (1 <<< m.toSq))
      (mi + m.promotion) (1 <<< m.toSq)) (mi + m.promotion) (1 <<< m.fromSq))
      (mi + m.promotion) (1 <<< m.fromSq)) mi (1 <<< m.fromSq))
    hside hw hbl hall
  · rw [restore_boards_flag2 _ _ hf]
    have hAto2 : get_piece_at (apply_move kb b m).position m.toSq = mi + m.promotion := hAto
    rw [hAto2, if_pos (by rw [show (⟨m, get_piece_at b.position m.toSq, b.position.castle_rights,
          b.position.en_passant_square, b.position.halfmove_clock,
          b.position.zobrist_hash⟩ : MoveUndo).captured_piece = q from hq]; omega),
        show (mi + m.promotion) / 6 * 6 = mi from by omega,
        show (⟨m, get_piece_at b.position m.toSq, b.position.castle_rights,
          b.position.en_passant_square, b.position.halfmove_clock,
          b.position.zobrist_hash⟩ : MoveUndo).captured_piece = q from hq]
  · intro j hj
    by_cases hjp : j = mi + m.promotion
    · subst hjp
      rw [pieceBB_updBB_ne _ _ _ _ hpine, pieceBB_updBB_self _ _ _ hj,
          pieceBB_updBB_self _ _ _ hj, pieceBB_updBB_self _ _ _ hj,
          pieceBB_updBB_ne _ _ _ _ hqpi.symm,
          apply_move_pieceBB, hba, pieceBB_updBB_self _ _ _ hj,
          pieceBB_updBB_ne _ _ _ _ hpine, pieceBB_updBB_ne _ _ _ _ hpine,
          pieceBB_updBB_ne _ _ _ _ hpine, pieceBB_updBB_ne _ _ _ _ hqpi.symm,
          xor_cancel_r, xor_cancel_r]
    · by_cases hjm : j = mi
      · subst hjm
        rw [pieceBB_updBB_self _ _ _ hj, pieceBB_updBB_ne _ _ _ _ hjp,
            pieceBB_updBB_ne _ _ _ _ hjp, pieceBB_updBB_ne _ _ _ _ hjp,
            pieceBB_updBB_ne _ _ _ _ hqmi.symm,
            apply_move_pieceBB, hba, pieceBB_updBB_ne _ _ _ _ hjp,
            pieceBB_updBB_self _ _ _ hj, pieceBB_updBB_self _ _ _ hj,
            pieceBB_updBB_self _ _ _ hj, pieceBB_updBB_ne _ _ _ _ hqmi.symm,
            xor_cancel_r, xor_cancel_r]
      · by_cases hjq : j = q
        · subst hjq
          rw [pieceBB_updBB_ne _ _ _ _ hjm, pieceBB_updBB_ne _ _ _ _ hjp,
              pieceBB_updBB_ne _ _ _ _ hjp, pieceBB_updBB_ne _ _ _ _ hjp,
              pieceBB_updBB_self _ _ _ hj,
              apply_move_pieceBB, hba, pieceBB_updBB_ne _ _ _ _ hjp,
              pieceBB_updBB_ne _ _ _ _ hjm, pieceBB_updBB_ne _ _ _ _ hjm,
              pieceBB_updBB_ne _ _ _ _ hjm, pieceBB_updBB_self _ _ _ hj,
              xor_cancel_r]
        · rw [pieceBB_updBB_ne _ _ _ _ hjm, pieceBB_updBB_ne _ _ _ _ hjp,
              pieceBB_updBB_ne _ _ _ _ hjp, pieceBB_updBB_ne _ _ _ _ hjp,
              pieceBB_updBB_ne _ _ _ _ hjq,
              apply_move_pieceBB, hba, pieceBB_updBB_ne _ _ _ _ hjp,
              pieceBB_updBB_ne _ _ _ _ hjm, pieceBB_updBB_ne _ _ _ _ hjm,
              pieceBB_updBB_ne _ _ _ _ hjm, pieceBB_updBB_ne _ _ _ _ hjq]

end ChessPlusPlus

namespace ChessPlusPlus

theorem restore_apply_castle_wk (kb : ZKeys) (b : Board) (m : Move)
    (hwf : WF b.position) (hf : m.flag = 3) (hfrom : m.fromSq = 4) (hto : m.toSq = 6)
    (hk : get_piece_at b.position 4 = 5)
    (hqto : get_piece_at b.position 6 = 12) :
    restore_from_history (apply_move kb b m) = b := by
  obtain ⟨hbd, hdisj, hside, hw, hbl, hall⟩ := hwf
  have hclear := none_of_get_piece_at hqto
  have hba : boards_after b.position m =
      updBB (updBB (updBB (updBB b.position 5 (1 <<< 4)) 5 (1 <<< 6))
        3 (1 <<< 7)) 3 (1 <<< 5) :=
    boards_after_castle_wk b.position m hf hfrom hto hk hqto
  have hAto : get_piece_at (boards_after b.position m) 6 = 5 := by
    apply get_piece_at_of _ _ _ (by omega)
    · rw [hba, pieceBB_updBB_ne _ _ _ _ (show (5 : Nat) ≠ 3 by omega),
          pieceBB_updBB_ne _ _ _ _ (show (5 : Nat) ≠ 3 by omega),
          pieceBB_updBB_self _ _ _ (by omega), pieceBB_updBB_self _ _ _ (by omega),
          testBit_toggle, testBit_toggle, hclear 5 (by omega)]
      simp
    · intro j hj hne
      rw [hba]
      by_cases hjr : j = 3
      · subst hjr
        rw [pieceBB_updBB_self _ _ _ hj, pieceBB_updBB_self _ _ _ hj,
            pieceBB_updBB_ne _ _ _ _ (show (3 : Nat) ≠ 5 by omega),
            pieceBB_updBB_ne _ _ _ _ (show (3 : Nat) ≠ 5 by omega),
            testBit_toggle, testBit_toggle, hclear 3 (by omega)]
        simp
      · rw [pieceBB_updBB_ne _ _ _ _ hjr, pieceBB_updBB_ne _ _ _ _ hjr,
            pieceBB_updBB_ne _ _ _ _ hne, pieceBB_updBB_ne _ _ _ _ hne, hclear j hj]
  have hcap : get_piece_at b.position m.toSq = 12 := by rw [hto]; exact hqto
  apply restore_eq_of kb b m
    (updBB (updBB (updBB (updBB (apply_move kb b m).position 5 (1 <<< 6))
      5 (1 <<< 4)) 3 (1 <<< 5)) 3 (1 <<< 7))
    hside hw hbl hall
  · rw [restore_boards_castle_k6 _ _ hf hto hcap]
    have hAto2 : get_piece_at (apply_move kb b m).position 6 = 5 := hAto
    rw [hAto2, hfrom]
  · intro j hj
    by_cases hjk : j = 5
    · subst hjk
      rw [pieceBB_updBB_ne _ _ _ _ (show (5 : Nat) ≠ 3 by omega),
          pieceBB_updBB_ne _ _ _ _ (show (5 : Nat) ≠ 3 by omega),
          pieceBB_updBB_self _ _ _ hj, pieceBB_updBB_self _ _ _ hj,
          apply_move_pieceBB, hba,
          pieceBB_updBB_ne _ _ _ _ (show (5 : Nat) ≠ 3 by omega),
          pieceBB_updBB_ne _ _ _ _ (show (5 : Nat) ≠ 3 by omega),
          pieceBB_updBB_self _ _ _ hj, pieceBB_updBB_self _ _ _ hj,
          xor_cancel_r, xor_cancel_r]
    · by_cases hjr : j = 3
      · subst hjr
        rw [pieceBB_updBB_self _ _ _ hj, pieceBB_updBB_self _ _ _ hj,
            pieceBB_updBB_ne _ _ _ _ hjk, pieceBB_updBB_ne _ _ _ _ hjk,
            apply_move_pieceBB, hba,
            pieceBB_updBB_self _ _ _ hj, pieceBB_updBB_self _ _ _ hj,
            pieceBB_updBB_ne _ _ _ _ hjk, pieceBB_updBB_ne _ _ _ _ hjk,
            xor_cancel_r, xor_cancel_r]
      · rw [pieceBB_updBB_ne _ _ _ _ hjr, pieceBB_updBB_ne _ _ _ _ hjr,
            pieceBB_updBB_ne _ _ _ _ hjk, pieceBB_updBB_ne _ _ _ _ hjk,
            apply_move_pieceBB, hba,
            pieceBB_updBB_ne _ _ _ _ hjr, pieceBB_updBB_ne _ _ _ _ hjr,
            pieceBB_updBB_ne _ _ _ _ hjk, pieceBB_updBB_ne _ _ _ _ hjk]

theorem restore_apply_castle_wq (kb : ZKeys) (b : Board) (m : Move)
    (hwf : WF b.position) (hf : m.flag = 3) (hfrom : m.fromSq = 4) (hto : m.toSq = 2)
    (hk : get_piece_at b.position 4 = 5)
    (hqto : get_piece_at b.position 2 = 12) :
    restore_from_history (apply_move kb b m) = b := by
  obtain ⟨hbd, hdisj, hside, hw, hbl, hall⟩ := hwf
  have hclear := none_of_get_piece_at hqto
  have hba : boards_after b.position m =
      updBB (updBB (updBB (updBB b.position 5 (1 <<< 4)) 5 (1 <<< 2))
        3 (1 <<< 0)) 3 (1 <<< 3) :=
    boards_after_castle_wq b.position m hf hfrom hto hk hqto
  have hAto : get_piece_at (boards_after b.position m) 2 = 5 := by
    apply get_piece_at_of _ _ _ (by omega)
    · rw [hba, pieceBB_updBB_ne _ _ _ _ (show (5 : Nat) ≠ 3 by omega),
          pieceBB_updBB_ne _ _ _ _ (show (5 : Nat) ≠ 3 by omega),
          pieceBB_updBB_self _ _ _ (by omega), pieceBB_updBB_self _ _ _ (by omega),
          testBit_toggle, testBit_toggle, hclear 5 (by omega)]
      simp
    · intro j hj hne
      rw [hba]
      by_cases hjr : j = 3
      · subst hjr
        rw [pieceBB_updBB_self _ _ _ hj, pieceBB_updBB_self _ _ _ hj,
            pieceBB_updBB_ne _ _ _ _ (show (3 : Nat) ≠ 5 by omega),
            pieceBB_updBB_ne _ _ _ _ (show (3 : Nat) ≠ 5 by omega),
            testBit_toggle, testBit_toggle, hclear 3 (by omega)]
        simp
      · rw [pieceBB_updBB_ne _ _ _ _ hjr, pieceBB_updBB_ne _ _ _ _ hjr,
            pieceBB_updBB_ne _ _ _ _ hne, pieceBB_updBB_ne _ _ _ _ hne, hclear j hj]
  have hcap : get_piece_at b.position m.toSq = 12 := by rw [hto]; exact hqto
  apply restore_eq_of kb b m
    (updBB (updBB (updBB (updBB (apply_move kb b m).position 5 (1 <<< 2))
      5 (1 <<< 4)) 3 (1 <<< 3)) 3 (1 <<< 0))
    hside hw hbl hall
  · rw [restore_boards_castle_k2 _ _ hf hto hcap]
    have hAto2 : get_piece_at (apply_move kb b m).position 2 = 5 := hAto
    rw [hAto2, hfrom]
  · intro j hj
    by_cases hjk : j = 5
    · subst hjk
      rw [pieceBB_updBB_ne _ _ _ _ (show (5 : Nat) ≠ 3 by omega),
          pieceBB_updBB_ne _ _ _ _ (show (5 : Nat) ≠ 3 by omega),
          pieceBB_updBB_self _ _ _ hj, pieceBB_updBB_self _ _ _ hj,
          apply_move_pieceBB, hba,
          pieceBB_updBB_ne _ _ _ _ (show (5 : Nat) ≠ 3 by omega),
          pieceBB_updBB_ne _ _ _ _ (show (5 : Nat) ≠ 3 by omega),
          pieceBB_updBB_self _ _ _ hj, pieceBB_updBB_self _ _ _ hj,
          xor_cancel_r, xor_cancel_r]
    · by_cases hjr : j = 3
      · subst hjr
        rw [pieceBB_updBB_self _ _ _ hj, pieceBB_updBB_self _ _ _ hj,
            pieceBB_updBB_ne _ _ _ _ hjk, pieceBB_updBB_ne _ _ _ _ hjk,
            apply_move_pieceBB, hba,
            pieceBB_updBB_self _ _ _ hj, pieceBB_updBB_self _ _ _ hj,
            pieceBB_updBB_ne _ _ _ _ hjk, pieceBB_updBB_ne _ _ _ _ hjk,
            xor_cancel_r, xor_cancel_r]
      · rw [pieceBB_updBB_ne _ _ _ _ hjr, pieceBB_updBB_ne _ _ _ _ hjr,
            pieceBB_updBB_ne _ _ _ _ hjk, pieceBB_updBB_ne _ _ _ _ hjk,
            apply_move_pieceBB, hba,
            pieceBB_updBB_ne _ _ _ _ hjr, pieceBB_updBB_ne _ _ _ _ hjr,
            pieceBB_updBB_ne _ _ _ _ hjk, pieceBB_updBB_ne _ _ _ _ hjk]

theorem restore_apply_castle_bk (kb : ZKeys) (b : Board) (m : Move)
    (hwf : WF b.position) (hf : m.flag = 3) (hfrom : m.fromSq = 60) (hto : m.toSq = 62)
    (hk : get_piece_at b.position 60 = 11)
    (hqto : get_piece_at b.position 62 = 12) :
    restore_from_history (apply_move kb b m) = b := by
  obtain ⟨hbd, hdisj, hside, hw, hbl, hall⟩ := hwf
  have hclear := none_of_get_piece_at hqto
  have hba : boards_after b.position m =
      updBB (updBB (updBB (updBB b.position 11 (1 <<< 60)) 11 (1 <<< 62))
        9 (1 <<< 63)) 9 (1 <<< 61) :=
    boards_after_castle_bk b.position m hf hfrom hto hk hqto
  have hAto : get_piece_at (boards_after b.position m) 62 = 11 := by
    apply get_piece_at_of _ _ _ (by omega)
    · rw [hba, pieceBB_updBB_ne _ _ _ _ (show (11 : Nat) ≠ 9 by omega),
          pieceBB_updBB_ne _ _ _ _ (show (11 : Nat) ≠ 9 by omega),
          pieceBB_updBB_self _ _ _ (by omega), pieceBB_updBB_self _ _ _ (by omega),
          testBit_toggle, testBit_toggle, hclear 11 (by omega)]
      simp
    · intro j hj hne
      rw [hba]
      by_cases hjr : j = 9
      · subst hjr
        rw [pieceBB_updBB_self _ _ _ hj, pieceBB_updBB_self _ _ _ hj,
            pieceBB_updBB_ne _ _ _ _ (show (9 : Nat) ≠ 11 by omega),
            pieceBB_updBB_ne _ _ _ _ (show (9 : Nat) ≠ 11 by omega),
            testBit_toggle, testBit_toggle, hclear 9 (by omega)]
        simp
      · rw [pieceBB_updBB_ne _ _ _ _ hjr, pieceBB_updBB_ne _ _ _ _ hjr,
            pieceBB_updBB_ne _ _ _ _ hne, pieceBB_updBB_ne _ _ _ _ hne, hclear j hj]
  have hcap : get_piece_at b.position m.toSq = 12 := by rw [hto]; exact hqto
  apply restore_eq_of kb b m
    (updBB (updBB (updBB (updBB (apply_move kb b m).position 11 (1 <<< 62))
      11 (1 <<< 60)) 9 (1 <<< 61)) 9 (1 <<< 63))
    hside hw hbl hall
  · rw [restore_boards_castle_k62 _ _ hf hto hcap]
    have hAto2 : get_piece_at (apply_move kb b m).position 62 = 11 := hAto
    rw [hAto2, hfrom]
  · intro j hj
    by_cases hjk : j = 11
    · subst hjk
      rw [pieceBB_updBB_ne _ _ _ _ (show (11 : Nat) ≠ 9 by omega),
          pieceBB_updBB_ne _ _ _ _ (show (11 : Nat) ≠ 9 by omega),
          pieceBB_updBB_self _ _ _ hj, pieceBB_updBB_self _ _ _ hj,
          apply_move_pieceBB, hba,
          pieceBB_updBB_ne _ _ _ _ (show (11 : Nat) ≠ 9 by omega),
          pieceBB_updBB_ne _ _ _ _ (show (11 : Nat) ≠ 9 by omega),
          pieceBB_updBB_self _ _ _ hj, pieceBB_updBB_self _ _ _ hj,
          xor_cancel_r, xor_cancel_r]
    · by_cases hjr : j = 9
      · subst hjr
        rw [pieceBB_updBB_self _ _ _ hj, pieceBB_updBB_self _ _ _ hj,
            pieceBB_updBB_ne _ _ _ _ hjk, pieceBB_updBB_ne _ _ _ _ hjk,
            apply_move_pieceBB, hba,
            pieceBB_updBB_self _ _ _ hj, pieceBB_updBB_self _ _ _ hj,
            pieceBB_updBB_ne _ _ _ _ hjk, pieceBB_updBB_ne _ _ _ _ hjk,
            xor_cancel_r, xor_cancel_r]
      · rw [pieceBB_updBB_ne _ _ _ _ hjr, pieceBB_updBB_ne _ _ _ _ hjr,
            pieceBB_updBB_ne _ _ _ _ hjk, pieceBB_updBB_ne _ _ _ _ hjk,
            apply_move_pieceBB, hba,
            pieceBB_updBB_ne _ _ _ _ hjr, pieceBB_updBB_ne _ _ _ _ hjr,
            pieceBB_updBB_ne _ _ _ _ hjk, pieceBB_updBB_ne _ _ _ _ hjk]

theorem restore_apply_castle_bq (kb : ZKeys) (b : Board) (m : Move)
    (hwf : WF b.position) (hf : m.flag = 3) (hfrom : m.fromSq = 60) (hto : m.toSq = 58)
    (hk : get_piece_at b.position 60 = 11)
    (hqto : get_piece_at b.position 58 = 12) :
    restore_from_history (apply_move kb b m) = b := by
  obtain ⟨hbd, hdisj, hside, hw, hbl, hall⟩ := hwf
  have hclear := none_of_get_piece_at hqto
  have hba : boards_after b.position m =
      updBB (updBB (updBB (updBB b.position 11 (1 <<< 60)) 11 (1 <<< 58))
        9 (1 <<< 56)) 9 (1 <<< 59) :=
    boards_after_castle_bq b.position m hf hfrom hto hk hqto
  have hAto : get_piece_at (boards_after b.position m) 58 = 11 := by
    apply get_piece_at_of _ _ _ (by omega)
    · rw [hba, pieceBB_updBB_ne _ _ _ _ (show (11 : Nat) ≠ 9 by omega),
          pieceBB_updBB_ne _ _ _ _ (show (11 : Nat) ≠ 9 by omega),
          pieceBB_updBB_self _ _ _ (by omega), pieceBB_updBB_self _ _ _ (by omega),
          testBit_toggle, testBit_toggle, hclear 11 (by omega)]
      simp
    · intro j hj hne
      rw [hba]
      by_cases hjr : j = 9
      · subst hjr
        rw [pieceBB_updBB_self _ _ _ hj, pieceBB_updBB_self _ _ _ hj,
            pieceBB_updBB_ne _ _ _ _ (show (9 : Nat) ≠ 11 by omega),
            pieceBB_updBB_ne _ _ _ _ (show (9 : Nat) ≠ 11 by omega),
            testBit_toggle, testBit_toggle, hclear 9 (by omega)]
        simp
      · rw [pieceBB_updBB_ne _ _ _ _ hjr, pieceBB_updBB_ne _ _ _ _ hjr,
            pieceBB_updBB_ne _ _ _ _ hne, pieceBB_updBB_ne _ _ _ _ hne, hclear j hj]
  have hcap : get_piece_at b.position m.toSq = 12 := by rw [hto]; exact hqto
  apply restore_eq_of kb b m
    (updBB (updBB (updBB (updBB (apply_move kb b m).position 11 (1 <<< 58))
      11 (1 <<< 60)) 9 (1 <<< 59)) 9 (1 <<< 56))
    hside hw hbl hall
  · rw [restore_boards_castle_k58 _ _ hf hto hcap]
    have hAto2 : get_piece_at (apply_move kb b m).position 58 = 11 := hAto
    rw [hAto2, hfrom]
  · intro j hj
    by_cases hjk : j = 11
    · subst hjk
      rw [pieceBB_updBB_ne _ _ _ _ (show (11 : Nat) ≠ 9 by omega),
          pieceBB_updBB_ne _ _ _ _ (show (11 : Nat) ≠ 9 by omega),
          pieceBB_updBB_self _ _ _ hj, pieceBB_updBB_self _ _ _ hj,
          apply_move_pieceBB, hba,
          pieceBB_updBB_ne _ _ _ _ (show (11 : Nat) ≠ 9 by omega),
          pieceBB_updBB_ne _ _ _ _ (show (11 : Nat) ≠ 9 by omega),
          pieceBB_updBB_self _ _ _ hj, pieceBB_updBB_self _ _ _ hj,
          xor_cancel_r, xor_cancel_r]
    · by_cases hjr : j = 9
      · subst hjr
        rw [pieceBB_updBB_self _ _ _ hj, pieceBB_updBB_self _ _ _ hj,
            pieceBB_updBB_ne _ _ _ _ hjk, pieceBB_updBB_ne _ _ _ _ hjk,
            apply_move_pieceBB, hba,
            pieceBB_updBB_self _ _ _ hj, pieceBB_updBB_self _ _ _ hj,
            pieceBB_updBB_ne _ _ _ _ hjk, pieceBB_updBB_ne _ _ _ _ hjk,
            xor_cancel_r, xor_cancel_r]
      · rw [pieceBB_updBB_ne _ _ _ _ hjr, pieceBB_updBB_ne _ _ _ _ hjr,
            pieceBB_updBB_ne _ _ _ _ hjk, pieceBB_updBB_ne _ _ _ _ hjk,
            apply_move_pieceBB, hba,
            pieceBB_updBB_ne _ _ _ _ hjr, pieceBB_updBB_ne _ _ _ _ hjr,
            pieceBB_updBB_ne _ _ _ _ hjk, pieceBB_updBB_ne _ _ _ _ hjk]

end ChessPlusPlus

namespace ChessPlusPlus

theorem mem_squaresOf {s bb : Nat} : s ∈ squaresOf bb ↔ s < 64 ∧ bb.testBit s = true := by
  simp [squaresOf, List.mem_filter, List.mem_range]

theorem sq_add_small (f : Nat) (d : Int) (h1 : 0 ≤ (f : Int) + d) (h2 : (f : Int) + d < 256) :
    (sq_add f d : Int) = (f : Int) + d := by
  unfold sq_add
  rw [Int.emod_eq_of_lt h1 h2, Int.toNat_of_nonneg h1]

theorem lsbAux_spec : ∀ fuel bb, bb ≠ 0 → bb < 2 ^ fuel →
    bb.testBit (lsbAux bb fuel) = true ∧ lsbAux bb fuel < fuel := by
  intro fuel
  induction fuel with
  | zero => intro bb h0 hlt; omega
  | succ n ih =>
    intro bb h0 hlt
    rw [lsbAux]
    by_cases hodd : bb % 2 = 1
    · rw [if_pos hodd, Nat.testBit_zero]
      exact ⟨by simp [hodd], by omega⟩
    · rw [if_neg hodd]
      have hbb2 : bb / 2 ≠ 0 := by omega
      have hbb2lt : bb / 2 < 2 ^ n := by
        have : (2 : Nat) ^ (n + 1) = 2 ^ n * 2 := by ring
        omega
      obtain ⟨hbit, hlt2⟩ := ih (bb / 2) hbb2 hbb2lt
      exact ⟨by rw [Nat.testBit_succ]; exact hbit, by omega⟩

theorem lsb_spec (bb : Nat) (h : bb ≠ 0) (hlt : bb < 2 ^ 64) :
    bb.testBit (lsb bb) = true ∧ lsb bb < 64 := by
  unfold lsb
  rw [if_neg h]
  exact lsbAux_spec 64 bb h hlt

theorem mem_targets {pos : Position} {c atk f : Nat} {m : Move}
    (hm : m ∈ (squaresOf atk).filterMap (fun t =>
      let target := get_piece_at pos t
      if target = 12 then some ⟨f, t, 0, 6⟩
      else if get_piece_color target ≠ c then some ⟨f, t, 1, 6⟩
      else none)) :
    ∃ t, t < 64 ∧
      ((m = ⟨f, t, 0, 6⟩ ∧ get_piece_at pos t = 12) ∨
       (m = ⟨f, t, 1, 6⟩ ∧ get_piece_at pos t ≠ 12 ∧ get_piece_color (get_piece_at pos t) ≠ c)) := by
  rw [List.mem_filterMap] at hm
  obtain ⟨t, ht, heq⟩ := hm
  rw [mem_squaresOf] at ht
  refine ⟨t, ht.1, ?_⟩
  by_cases h12 : get_piece_at pos t = 12
  · simp only [h12, if_pos] at heq
    norm_num at heq
    exact Or.inl ⟨heq.symm, h12⟩
  · by_cases hc : get_piece_color (get_piece_at pos t) ≠ c
    · simp only [if_neg h12, if_pos hc] at heq
      norm_num at heq
      exact Or.inr ⟨heq.symm, h12, hc⟩
    · simp only [if_neg h12, if_neg hc] at heq
      exact absurd heq (by simp)

end ChessPlusPlus

namespace ChessPlusPlus

/-- GoodMove collects the facts that pseudo-legal generation guarantees
about every move it returns: the mover's board holds the from-square,
squares are on the board, and the flag matches the target occupancy
(plus the castling preconditions for castling moves). -/
def GoodMove (pos : Position) (m : Move) : Prop :=
  (∃ T, T < 6 ∧ m.fromSq < 64 ∧ m.toSq < 64 ∧
    (pieceBB pos (pos.side_to_move * 6 + T)).testBit m.fromSq = true ∧
    ((m.flag = 0 ∧ get_piece_at pos m.toSq = 12) ∨
     (m.flag = 1 ∧ get_piece_at pos m.toSq ≠ 12 ∧
       get_piece_color (get_piece_at pos m.toSq) ≠ pos.side_to_move))) ∨
  (m.flag = 2 ∧ m.fromSq < 64 ∧ m.toSq < 64 ∧ 1 ≤ m.promotion ∧ m.promotion ≤ 4 ∧
    (pieceBB pos (pos.side_to_move * 6 + 0)).testBit m.fromSq = true ∧
    (get_piece_at pos m.toSq = 12 ∨
     (get_piece_at pos m.toSq ≠ 12 ∧ get_piece_color (get_piece_at pos m.toSq) ≠ pos.side_to_move))) ∨
  (m.flag = 3 ∧
    ((pos.side_to_move = 0 ∧ m.fromSq = 4 ∧
      ((m.toSq = 6 ∧ pos.castle_rights &&& 1 ≠ 0 ∧ get_piece_at pos 6 = 12) ∨
       (m.toSq = 2 ∧ pos.castle_rights &&& 2 ≠ 0 ∧ get_piece_at pos 2 = 12))) ∨
     (pos.side_to_move = 1 ∧ m.fromSq = 60 ∧
      ((m.toSq = 62 ∧ pos.castle_rights &&& 4 ≠ 0 ∧ get_piece_at pos 62 = 12) ∨
       (m.toSq = 58 ∧ pos.castle_rights &&& 8 ≠ 0 ∧ get_piece_at pos 58 = 12)))))

theorem knight_good (pos : Position) (m : Move)
    (hm : m ∈ generate_knight_moves pos pos.side_to_move) : GoodMove pos m := by
  rw [generate_knight_moves, List.mem_flatMap] at hm
  obtain ⟨f, hf, hm2⟩ := hm
  rw [mem_squaresOf] at hf
  obtain ⟨t, ht, hc⟩ := mem_targets hm2
  left
  refine ⟨1, by omega, ?_⟩
  rcases hc with ⟨he, h12⟩ | ⟨he, h12, hcol⟩ <;> subst he <;>
    exact ⟨hf.1, ht, hf.2, by simp_all⟩

theorem bishop_good (pos : Position) (m : Move) (f : Nat)
    (hf : f ∈ pieces_of_type pos pos.side_to_move 2)
    (hm : m ∈ generate_bishop_moves pos f) : GoodMove pos m := by
  rw [pieces_of_type, mem_squaresOf] at hf
  rw [generate_bishop_moves] at hm
  obtain ⟨t, ht, hc⟩ := mem_targets hm
  left
  refine ⟨2, by omega, ?_⟩
  rcases hc with ⟨he, h12⟩ | ⟨he, h12, hcol⟩ <;> subst he <;>
    exact ⟨hf.1, ht, hf.2, by simp_all⟩

theorem rook_good (pos : Position) (m : Move) (f : Nat)
    (hf : f ∈ pieces_of_type pos pos.side_to_move 3)
    (hm : m ∈ generate_rook_moves pos f) : GoodMove pos m := by
  rw [pieces_of_type, mem_squaresOf] at hf
  rw [generate_rook_moves] at hm
  obtain ⟨t, ht, hc⟩ := mem_targets hm
  left
  refine ⟨3, by omega, ?_⟩
  rcases hc with ⟨he, h12⟩ | ⟨he, h12, hcol⟩ <;> subst he <;>
    exact ⟨hf.1, ht, hf.2, by simp_all⟩

theorem queen_good (pos : Position) (m : Move) (f : Nat)
    (hf : f ∈ pieces_of_type pos pos.side_to_move 4)
    (hm : m ∈ generate_queen_moves pos f) : GoodMove pos m := by
  rw [pieces_of_type, mem_squaresOf] at hf
  rw [generate_queen_moves] at hm
  obtain ⟨t, ht, hc⟩ := mem_targets hm
  left
  refine ⟨4, by omega, ?_⟩
  rcases hc with ⟨he, h12⟩ | ⟨he, h12, hcol⟩ <;> subst he <;>
    exact ⟨hf.1, ht, hf.2, by simp_all⟩

end ChessPlusPlus

namespace ChessPlusPlus

theorem pawn_good (pos : Position) (m : Move)
    (hm : m ∈ generate_pawn_moves pos pos.side_to_move) : GoodMove pos m := by
  rw [generate_pawn_moves, List.mem_flatMap] at hm
  obtain ⟨f, hf, hm2⟩ := hm
  rw [mem_squaresOf] at hf
  obtain ⟨hf64, hfb⟩ := hf
  simp only [List.mem_append, List.mem_flatMap, List.mem_cons, List.not_mem_nil, or_false,
    mem_squaresOf, List.mem_ite_nil_right] at hm2
  set d : Int := (if pos.side_to_move = 0 then (8 : Int) else -8) with hd
  rcases hm2 with ⟨⟨ht64, ht12⟩, hp | ⟨hrank, hd12, he⟩⟩ | ⟨t, ⟨ht64b, htb⟩, ⟨hne, hcol⟩, hmt⟩
  · split at hp
    case isTrue hpromo =>
      simp only [List.mem_cons, List.not_mem_nil, or_false] at hp
      refine Or.inr (Or.inl ?_)
      rcases hp with he | he | he | he <;> subst he <;>
        exact ⟨rfl, hf64, ht64, by norm_num, by norm_num, hfb, Or.inl ht12⟩
    case isFalse hpromo =>
      simp only [List.mem_cons, List.not_mem_nil, or_false] at hp
      subst hp
      exact Or.inl ⟨0, by omega, hf64, ht64, hfb, Or.inl ⟨rfl, ht12⟩⟩
  · subst he
    have ht64d : sq_add f (2 * d) < 64 := by
      rcases hrank with ⟨hs, hr⟩ | ⟨hs, hr⟩ <;> rw [hs] at hd <;> norm_num at hd <;>
        rw [hd] <;> simp only [sq_add] <;> omega
    exact Or.inl ⟨0, by omega, hf64, ht64d, hfb, Or.inl ⟨rfl, hd12⟩⟩
  · split at hmt
    case isTrue hpromo =>
      simp only [List.mem_cons, List.not_mem_nil, or_false] at hmt
      refine Or.inr (Or.inl ?_)
      rcases hmt with he | he | he | he <;> subst he <;>
        exact ⟨rfl, hf64, ht64b, by norm_num, by norm_num, hfb, Or.inr ⟨hne, hcol⟩⟩
    case isFalse hpromo =>
      simp only [List.mem_cons, List.not_mem_nil, or_false] at hmt
      subst hmt
      exact Or.inl ⟨0, by omega, hf64, ht64b, hfb, Or.inr ⟨rfl, hne, hcol⟩⟩

theorem castling_good (pos : Position) (m : Move)
    (hm : m ∈ generate_castling_moves pos pos.side_to_move) : GoodMove pos m := by
  rw [generate_castling_moves, List.mem_append] at hm
  refine Or.inr (Or.inr ?_)
  rcases hm with hw | hb
  · split at hw
    case isFalse => simp at hw
    case isTrue hs0 =>
      rw [List.mem_append] at hw
      refine ⟨?_, Or.inl ⟨hs0, ?_⟩⟩
      all_goals rcases hw with hk | hq
      · split at hk
        case isFalse => simp at hk
        case isTrue hc => simp only [List.mem_cons, List.not_mem_nil, or_false] at hk; rw [hk]
      · split at hq
        case isFalse => simp at hq
        case isTrue hc => simp only [List.mem_cons, List.not_mem_nil, or_false] at hq; rw [hq]
      · split at hk
        case isFalse => simp at hk
        case isTrue hc =>
          simp only [List.mem_cons, List.not_mem_nil, or_false] at hk
          rw [hk]
          exact ⟨rfl, Or.inl ⟨rfl, hc.1, hc.2.2.1⟩⟩
      · split at hq
        case isFalse => simp at hq
        case isTrue hc =>
          simp only [List.mem_cons, List.not_mem_nil, or_false] at hq
          rw [hq]
          exact ⟨rfl, Or.inr ⟨rfl, hc.1, hc.2.2.1⟩⟩
  · split at hb
    case isFalse => simp at hb
    case isTrue hs1 =>
      rw [List.mem_append] at hb
      refine ⟨?_, Or.inr ⟨hs1, ?_⟩⟩
      all_goals rcases hb with hk | hq
      · split at hk
        case isFalse => simp at hk
        case isTrue hc => simp only [List.mem_cons, List.not_mem_nil, or_false] at hk; rw [hk]
      · split at hq
        case isFalse => simp at hq
        case isTrue hc => simp only [List.mem_cons, List.not_mem_nil, or_false] at hq; rw [hq]
      · split at hk
        case isFalse => simp at hk
        case isTrue hc =>
          simp only [List.mem_cons, List.not_mem_nil, or_false] at hk
          rw [hk]
          exact ⟨rfl, Or.inl ⟨rfl, hc.1, hc.2.2.1⟩⟩
      · split at hq
        case isFalse => simp at hq
        case isTrue hc =>
          simp only [List.mem_cons, List.not_mem_nil, or_false] at hq
          rw [hq]
          exact ⟨rfl, Or.inr ⟨rfl, hc.1, hc.2.2.1⟩⟩

theorem king_good (pos : Position) (m : Move)
    (hbd : pieceBB pos (pos.side_to_move * 6 + 5) < 2 ^ 64)
    (hm : m ∈ generate_king_moves pos pos.side_to_move) : GoodMove pos m := by
  rw [generate_king_moves] at hm
  simp only at hm
  split at hm
  case isTrue => simp at hm
  case isFalse hk0 =>
    rw [List.mem_append] at hm
    rcases hm with hstep | hcast
    · obtain ⟨hlb, hl64⟩ := lsb_spec _ hk0 hbd
      obtain ⟨t, ht, hc⟩ := mem_targets hstep
      left
      refine ⟨5, by omega, ?_⟩
      rcases hc with ⟨he, h12⟩ | ⟨he, h12, hcol⟩ <;> subst he <;>
        exact ⟨hl64, ht, hlb, by simp_all⟩
    · exact castling_good pos m hcast

theorem generate_good (pos : Position) (m : Move)
    (hbd : ∀ i, i < 12 → pieceBB pos i < 2 ^ 64) (hside : pos.side_to_move < 2)
    (hm : m ∈ generate_pseudo_legal_moves pos) : GoodMove pos m := by
  rw [generate_pseudo_legal_moves] at hm
  simp only [List.mem_append, List.mem_flatMap] at hm
  rcases hm with ((((hp | hn) | hk) | hb) | hr) | hq
  · exact pawn_good pos m hp
  · exact knight_good pos m hn
  · exact king_good pos m (hbd _ (by omega)) hk
  · obtain ⟨f, hf, hmb⟩ := hb
    exact bishop_good pos m f hf hmb
  · obtain ⟨f, hf, hmb⟩ := hr
    exact rook_good pos m f hf hmb
  · obtain ⟨f, hf, hmb⟩ := hq
    exact queen_good pos m f hf hmb

end ChessPlusPlus

namespace ChessPlusPlus

theorem restore_apply (kb : ZKeys) (b : Board) (m : Move)
    (hwf : WF b.position) (hco : CastleOk b.position)
    (hgm : GoodMove b.position m) :
    restore_from_history (apply_move kb b m) = b := by
  have hdisj := hwf.2.1
  have hside := hwf.2.2.1
  rcases hgm with ⟨T, hT, hf64, ht64, hbit, hflag⟩ |
    ⟨hf2, hf64, ht64, hp1, hp4, hbit, hcap⟩ | ⟨hf3, hcase⟩
  · have hmi : get_piece_at b.position m.fromSq = b.position.side_to_move * 6 + T := by
      apply get_piece_at_of _ _ _ (by omega) hbit
      intro j hj hne
      exact testBit_false_of_disj (hdisj _ j (by omega) hj (fun e => hne e.symm)) hbit
    rcases hflag with ⟨hfl0, hq⟩ | ⟨hfl1, hq12, hcol⟩
    · exact restore_apply_flag0 kb b m _ hwf hfl0 hmi (by omega) hq
    · have hqle := get_piece_at_le b.position m.toSq
      apply restore_apply_flag1 kb b m _ (get_piece_at b.position m.toSq) hwf hfl1 hmi
        (by omega) rfl (by omega)
      intro e
      apply hcol
      rw [get_piece_color, e]
      omega
  · have hmi : get_piece_at b.position m.fromSq = b.position.side_to_move * 6 + 0 := by
      apply get_piece_at_of _ _ _ (by omega) hbit
      intro j hj hne
      exact testBit_false_of_disj (hdisj _ j (by omega) hj (fun e => hne e.symm)) hbit
    rcases hcap with hq | ⟨hq12, hcol⟩
    · exact restore_apply_flag2 kb b m _ hwf hf2 hmi (by omega) (by omega) hp1 hp4 hq
    · have hqle := get_piece_at_le b.position m.toSq
      apply restore_apply_flag2cap kb b m _ (get_piece_at b.position m.toSq) hwf hf2 hmi
        (by omega) (by omega) hp1 hp4 rfl (by omega)
      intro e
      apply hcol
      rw [get_piece_color, e]
      omega
  · rcases hcase with ⟨hs, hfrom, hc⟩ | ⟨hs, hfrom, hc⟩
    · rcases hc with ⟨hto, hr, hq⟩ | ⟨hto, hr, hq⟩
      · exact restore_apply_castle_wk kb b m hwf hf3 hfrom hto (hco.1 (Or.inl hr)) hq
      · exact restore_apply_castle_wq kb b m hwf hf3 hfrom hto (hco.1 (Or.inr hr)) hq
    · rcases hc with ⟨hto, hr, hq⟩ | ⟨hto, hr, hq⟩
      · exact restore_apply_castle_bk kb b m hwf hf3 hfrom hto (hco.2 (Or.inl hr)) hq
      · exact restore_apply_castle_bq kb b m hwf hf3 hfrom hto (hco.2 (Or.inr hr)) hq

theorem make_undo_roundtrip (kb : ZKeys) (b : Board) (m : Move)
    (hwf : WF b.position) (hco : CastleOk b.position)
    (hm : m ∈ generate_moves kb b) :
    ∃ b2, make_move kb b m = some b2 ∧ undo_move b2 = some b ∧
      ∃ u, b2.undo_history = u :: b.undo_history ∧
        u.old_hash = b.position.zobrist_hash := by
  have hmem := List.mem_filter.mp hm
  have hleg : is_legal_move kb b m = true := by
    have := hmem.2; simpa using this
  have hps : m ∈ generate_pseudo_legal_moves b.position := hmem.1
  have hgood := generate_good b.position m hwf.1 hwf.2.2.1 hps
  have hr := restore_apply kb b m hwf hco hgood
  refine ⟨apply_move kb b m, by rw [make_move, if_pos hleg], ?_, ?_⟩
  · have hne : (apply_move kb b m).undo_history.isEmpty = false := by
      rw [apply_move_undo]
      rfl
    rw [undo_move, hne]
    simp only [Bool.false_eq_true, if_false]
    rw [hr]
  · exact ⟨_, apply_move_undo kb b m, rfl⟩

end ChessPlusPlus

namespace ChessPlusPlus

/-- The piece-square part of `compute`, indexed through pieceBB. -/
def computeBoards (kb : ZKeys) (pos : Position) : Nat :=
  hashBB (kb.piece 0) (pieceBB pos 0) ^^^ hashBB (kb.piece 1) (pieceBB pos 1) ^^^
  hashBB (kb.piece 2) (pieceBB pos 2) ^^^ hashBB (kb.piece 3) (pieceBB pos 3) ^^^
  hashBB (kb.piece 4) (pieceBB pos 4) ^^^ hashBB (kb.piece 5) (pieceBB pos 5) ^^^
  hashBB (kb.piece 6) (pieceBB pos 6) ^^^ hashBB (kb.piece 7) (pieceBB pos 7) ^^^
  hashBB (kb.piece 8) (pieceBB pos 8) ^^^ hashBB (kb.piece 9) (pieceBB pos 9) ^^^
  hashBB (kb.piece 10) (pieceBB pos 10) ^^^ hashBB (kb.piece 11) (pieceBB pos 11)

theorem pieceBB_0 (pos : Position) : pieceBB pos 0 = pos.wp := rfl

theorem pieceBB_1 (pos : Position) : pieceBB pos 1 = pos.wn := rfl

theorem pieceBB_2 (pos : Position) : pieceBB pos 2 = pos.wb := rfl

theorem pieceBB_3 (pos : Position) : pieceBB pos 3 = pos.wr := rfl

theorem pieceBB_4 (pos : Position) : pieceBB pos 4 = pos.wq := rfl

theorem pieceBB_5 (pos : Position) : pieceBB pos 5 = pos.wk := rfl

theorem pieceBB_6 (pos : Position) : pieceBB pos 6 = pos.bp := rfl

theorem pieceBB_7 (pos : Position) : pieceBB pos 7 = pos.bn := rfl

theorem pieceBB_8 (pos : Position) : pieceBB pos 8 = pos.bb2 := rfl

theorem pieceBB_9 (pos : Position) : pieceBB pos 9 = pos.br := rfl

theorem pieceBB_10 (pos : Position) : pieceBB pos 10 = pos.bq := rfl

theorem pieceBB_11 (pos : Position) : pieceBB pos 11 = pos.bk := rfl

theorem compute_split (kb : ZKeys) (pos : Position) :
    compute kb pos = computeBoards kb pos ^^^ kb.castle pos.castle_rights ^^^
      (if pos.en_passant_square ≠ 64 then kb.ep (pos.en_passant_square % 8) else 0) ^^^
      (if pos.side_to_move = 1 then kb.black else 0) := by
  rw [compute, computeBoards]
  simp only [pieceBB_0, pieceBB_1, pieceBB_2, pieceBB_3, pieceBB_4, pieceBB_5, pieceBB_6,
    pieceBB_7, pieceBB_8, pieceBB_9, pieceBB_10, pieceBB_11]
  by_cases he : pos.en_passant_square ≠ 64 <;> by_cases hs : pos.side_to_move = 1 <;>
    simp [he, hs, Nat.xor_assoc]

theorem hashBBAux_congr (k : Nat → Nat) (a c : Nat) :
    ∀ n, (∀ i, i < n → a.testBit i = c.testBit i) → hashBBAux k a n = hashBBAux k c n := by
  intro n
  induction n with
  | zero => intro h; rfl
  | succ n ih =>
    intro h
    rw [hashBBAux, hashBBAux, ih (fun i hi => h i (by omega)), h n (by omega)]

theorem hashBBAux_toggle (k : Nat → Nat) (bb s : Nat) :
    ∀ n, s < n → hashBBAux k (bb ^^^ (1 <<< s)) n = hashBBAux k bb n ^^^ k s := by
  intro n
  induction n with
  | zero => omega
  | succ n ih =>
    intro hs
    rw [hashBBAux, hashBBAux]
    by_cases hn : s = n
    · subst hn
      have hlow : hashBBAux k (bb ^^^ (1 <<< s)) s = hashBBAux k bb s := by
        apply hashBBAux_congr
        intro i hi
        rw [testBit_toggle]
        simp [Nat.ne_of_gt hi]
      rw [hlow, testBit_toggle]
      cases hb : bb.testBit s
      · simp
      · simp [Nat.xor_assoc]
    · have hs2 : s < n := by omega
      rw [ih hs2, testBit_toggle]
      simp [hn, Nat.xor_assoc, Nat.xor_comm, xor_left_comm]

theorem hashBB_toggle (k : Nat → Nat) (bb s : Nat) (hs : s < 64) :
    hashBB k (bb ^^^ (1 <<< s)) = hashBB k bb ^^^ k s :=
  hashBBAux_toggle k bb s 64 hs

theorem apply_move_hash (kb : ZKeys) (b : Board) (m : Move) :
    (apply_move kb b m).position.zobrist_hash =
      hupdate kb b.position.zobrist_hash m (get_piece_at b.position m.fromSq)
        (get_piece_at b.position m.toSq) b.position.castle_rights
        (calculate_new_castle_rights (boards_after b.position m) m)
        b.position.en_passant_square
        (calculate_new_en_passant (boards_after b.position m) m) := rfl

theorem compute_apply (kb : ZKeys) (b : Board) (m : Move) :
    compute kb (apply_move kb b m).position =
      computeBoards kb (boards_after b.position m) ^^^
      kb.castle (calculate_new_castle_rights (boards_after b.position m) m) ^^^
      (if calculate_new_en_passant (boards_after b.position m) m ≠ 64 then
        kb.ep (calculate_new_en_passant (boards_after b.position m) m % 8) else 0) ^^^
      (if (if b.position.side_to_move = 0 then 1 else 0) = 1 then kb.black else 0) := by
  rw [compute_split]
  rfl

end ChessPlusPlus

namespace ChessPlusPlus

set_option maxHeartbeats 3200000 in
theorem computeBoards_updBB (kb : ZKeys) (pos : Position) (i s : Nat) (hi : i < 12)
    (hs : s < 64) :
    computeBoards kb (updBB pos i (1 <<< s)) = computeBoards kb pos ^^^ kb.piece i s := by
  interval_cases i
  · rw [computeBoards, computeBoards,
        pieceBB_updBB_ne pos 0 (1 <<< s) 1 (by norm_num),
        pieceBB_updBB_ne pos 0 (1 <<< s) 2 (by norm_num),
        pieceBB_updBB_ne pos 0 (1 <<< s) 3 (by norm_num),
        pieceBB_updBB_ne pos 0 (1 <<< s) 4 (by norm_num),
        pieceBB_updBB_ne pos 0 (1 <<< s) 5 (by norm_num),
        pieceBB_updBB_ne pos 0 (1 <<< s) 6 (by norm_num),
        pieceBB_updBB_ne pos 0 (1 <<< s) 7 (by norm_num),
        pieceBB_updBB_ne pos 0 (1 <<< s) 8 (by norm_num),
        pieceBB_updBB_ne pos 0 (1 <<< s) 9 (by norm_num),
        pieceBB_updBB_ne pos 0 (1 <<< s) 10 (by norm_num),
        pieceBB_updBB_ne pos 0 (1 <<< s) 11 (by norm_num),
        pieceBB_updBB_self pos 0 (1 <<< s) (by norm_num),
        hashBB_toggle (kb.piece 0) (pieceBB pos 0) s hs]
    simp [Nat.xor_assoc, Nat.xor_comm, xor_left_comm]
  · rw [computeBoards, computeBoards,
        pieceBB_updBB_ne pos 1 (1 <<< s) 0 (by norm_num),
        pieceBB_updBB_ne pos 1 (1 <<< s) 2 (by norm_num),
        pieceBB_updBB_ne pos 1 (1 <<< s) 3 (by norm_num),
        pieceBB_updBB_ne pos 1 (1 <<< s) 4 (by norm_num),
        pieceBB_updBB_ne pos 1 (1 <<< s) 5 (by norm_num),
        pieceBB_updBB_ne pos 1 (1 <<< s) 6 (by norm_num),
        pieceBB_updBB_ne pos 1 (1 <<< s) 7 (by norm_num),
        pieceBB_updBB_ne pos 1 (1 <<< s) 8 (by norm_num),
        pieceBB_updBB_ne pos 1 (1 <<< s) 9 (by norm_num),
        pieceBB_updBB_ne pos 1 (1 <<< s) 10 (by norm_num),
        pieceBB_updBB_ne pos 1 (1 <<< s) 11 (by norm_num),
        pieceBB_updBB_self pos 1 (1 <<< s) (by norm_num),
        hashBB_toggle (kb.piece 1) (pieceBB pos 1) s hs]
    simp [Nat.xor_assoc, Nat.xor_comm, xor_left_comm]
  · rw [computeBoards, computeBoards,
        pieceBB_updBB_ne pos 2 (1 <<< s) 0 (by norm_num),
        pieceBB_updBB_ne pos 2 (1 <<< s) 1 (by norm_num),
        pieceBB_updBB_ne pos 2 (1 <<< s) 3 (by norm_num),
        pieceBB_updBB_ne pos 2 (1 <<< s) 4 (by norm_num),
        pieceBB_updBB_ne pos 2 (1 <<< s) 5 (by norm_num),
        pieceBB_updBB_ne pos 2 (1 <<< s) 6 (by norm_num),
        pieceBB_updBB_ne pos 2 (1 <<< s) 7 (by norm_num),
        pieceBB_updBB_ne pos 2 (1 <<< s) 8 (by norm_num),
        pieceBB_updBB_ne pos 2 (1 <<< s) 9 (by norm_num),
        pieceBB_updBB_ne pos 2 (1 <<< s) 10 (by norm_num),
        pieceBB_updBB_ne pos 2 (1 <<< s) 11 (by norm_num),
        pieceBB_updBB_self pos 2 (1 <<< s) (by norm_num),
        hashBB_toggle (kb.piece 2) (pieceBB pos 2) s hs]
    simp [Nat.xor_assoc, Nat.xor_comm, xor_left_comm]
  · rw [computeBoards, computeBoards,
        pieceBB_updBB_ne pos 3 (1 <<< s) 0 (by norm_num),
        pieceBB_updBB_ne pos 3 (1 <<< s) 1 (by norm_num),
        pieceBB_updBB_ne pos 3 (1 <<< s) 2 (by norm_num),
        pieceBB_updBB_ne pos 3 (1 <<< s) 4 (by norm_num),
        pieceBB_updBB_ne pos 3 (1 <<< s) 5 (by norm_num),
        pieceBB_updBB_ne pos 3 (1 <<< s) 6 (by norm_num),
        pieceBB_updBB_ne pos 3 (1 <<< s) 7 (by norm_num),
        pieceBB_updBB_ne pos 3 (1 <<< s) 8 (by norm_num),
        pieceBB_updBB_ne pos 3 (1 <<< s) 9 (by norm_num),
        pieceBB_updBB_ne pos 3 (1 <<< s) 10 (by norm_num),
        pieceBB_updBB_ne pos 3 (1 <<< s) 11 (by norm_num),
        pieceBB_updBB_self pos 3 (1 <<< s) (by norm_num),
        hashBB_toggle (kb.piece 3) (pieceBB pos 3) s hs]
    simp [Nat.xor_assoc, Nat.xor_comm, xor_left_comm]
  · rw [computeBoards, computeBoards,
        pieceBB_updBB_ne pos 4 (1 <<< s) 0 (by norm_num),
        pieceBB_updBB_ne pos 4 (1 <<< s) 1 (by norm_num),
        pieceBB_updBB_ne pos 4 (1 <<< s) 2 (by norm_num),
        pieceBB_updBB_ne pos 4 (1 <<< s) 3 (by norm_num),
        pieceBB_updBB_ne pos 4 (1 <<< s) 5 (by norm_num),
        pieceBB_updBB_ne pos 4 (1 <<< s) 6 (by norm_num),
        pieceBB_updBB_ne pos 4 (1 <<< s) 7 (by norm_num),
        pieceBB_updBB_ne pos 4 (1 <<< s) 8 (by norm_num),
        pieceBB_updBB_ne pos 4 (1 <<< s) 9 (by norm_num),
        pieceBB_updBB_ne pos 4 (1 <<< s) 10 (by norm_num),
        pieceBB_updBB_ne pos 4 (1 <<< s) 11 (by norm_num),
        pieceBB_updBB_self pos 4 (1 <<< s) (by norm_num),
        hashBB_toggle (kb.piece 4) (pieceBB pos 4) s hs]
    simp [Nat.xor_assoc, Nat.xor_comm, xor_left_comm]
  · rw [computeBoards, computeBoards,
        pieceBB_updBB_ne pos 5 (1 <<< s) 0 (by norm_num),
        pieceBB_updBB_ne pos 5 (1 <<< s) 1 (by norm_num),
        pieceBB_updBB_ne pos 5 (1 <<< s) 2 (by norm_num),
        pieceBB_updBB_ne pos 5 (1 <<< s) 3 (by norm_num),
        pieceBB_updBB_ne pos 5 (1 <<< s) 4 (by norm_num),
        pieceBB_updBB_ne pos 5 (1 <<< s) 6 (by norm_num),
        pieceBB_updBB_ne pos 5 (1 <<< s) 7 (by norm_num),
        pieceBB_updBB_ne pos 5 (1 <<< s) 8 (by norm_num),
        pieceBB_updBB_ne pos 5 (1 <<< s) 9 (by norm_num),
        pieceBB_updBB_ne pos 5 (1 <<< s) 10 (by norm_num),
        pieceBB_updBB_ne pos 5 (1 <<< s) 11 (by norm_num),
        pieceBB_updBB_self pos 5 (1 <<< s) (by norm_num),
        hashBB_toggle (kb.piece 5) (pieceBB pos 5) s hs]
    simp [Nat.xor_assoc, Nat.xor_comm, xor_left_comm]
  · rw [computeBoards, computeBoards,
        pieceBB_updBB_ne pos 6 (1 <<< s) 0 (by norm_num),
        pieceBB_updBB_ne pos 6 (1 <<< s) 1 (by norm_num),
        pieceBB_updBB_ne pos 6 (1 <<< s) 2 (by norm_num),
        pieceBB_updBB_ne pos 6 (1 <<< s) 3 (by norm_num),
        pieceBB_updBB_ne pos 6 (1 <<< s) 4 (by norm_num),
        pieceBB_updBB_ne pos 6 (1 <<< s) 5 (by norm_num),
        pieceBB_updBB_ne pos 6 (1 <<< s) 7 (by norm_num),
        pieceBB_updBB_ne pos 6 (1 <<< s) 8 (by norm_num),
        pieceBB_updBB_ne pos 6 (1 <<< s) 9 (by norm_num),
        pieceBB_updBB_ne pos 6 (1 <<< s) 10 (by norm_num),
        pieceBB_updBB_ne pos 6 (1 <<< s) 11 (by norm_num),
        pieceBB_updBB_self pos 6 (1 <<< s) (by norm_num),
        hashBB_toggle (kb.piece 6) (pieceBB pos 6) s hs]
    simp [Nat.xor_assoc, Nat.xor_comm, xor_left_comm]
  · rw [computeBoards, computeBoards,
        pieceBB_updBB_ne pos 7 (1 <<< s) 0 (by norm_num),
        pieceBB_updBB_ne pos 7 (1 <<< s) 1 (by norm_num),
        pieceBB_updBB_ne pos 7 (1 <<< s) 2 (by norm_num),
        pieceBB_updBB_ne pos 7 (1 <<< s) 3 (by norm_num),
        pieceBB_updBB_ne pos 7 (1 <<< s) 4 (by norm_num),
        pieceBB_updBB_ne pos 7 (1 <<< s) 5 (by norm_num),
        pieceBB_updBB_ne pos 7 (1 <<< s) 6 (by norm_num),
        pieceBB_updBB_ne pos 7 (1 <<< s) 8 (by norm_num),
        pieceBB_updBB_ne pos 7 (1 <<< s) 9 (by norm_num),
        pieceBB_updBB_ne pos 7 (1 <<< s) 10 (by norm_num),
        pieceBB_updBB_ne pos 7 (1 <<< s) 11 (by norm_num),
        pieceBB_updBB_self pos 7 (1 <<< s) (by norm_num),
        hashBB_toggle (kb.piece 7) (pieceBB pos 7) s hs]
    simp [Nat.xor_assoc, Nat.xor_comm, xor_left_comm]
  · rw [computeBoards, computeBoards,
        pieceBB_updBB_ne pos 8 (1 <<< s) 0 (by norm_num),
        pieceBB_updBB_ne pos 8 (1 <<< s) 1 (by norm_num),
        pieceBB_updBB_ne pos 8 (1 <<< s) 2 (by norm_num),
        pieceBB_updBB_ne pos 8 (1 <<< s) 3 (by norm_num),
        pieceBB_updBB_ne pos 8 (1 <<< s) 4 (by norm_num),
        pieceBB_updBB_ne pos 8 (1 <<< s) 5 (by norm_num),
        pieceBB_updBB_ne pos 8 (1 <<< s) 6 (by norm_num),
        pieceBB_updBB_ne pos 8 (1 <<< s) 7 (by norm_num),
        pieceBB_updBB_ne pos 8 (1 <<< s) 9 (by norm_num),
        pieceBB_updBB_ne pos 8 (1 <<< s) 10 (by norm_num),
        pieceBB_updBB_ne pos 8 (1 <<< s) 11 (by norm_num),
        pieceBB_updBB_self pos 8 (1 <<< s) (by norm_num),
        hashBB_toggle (kb.piece 8) (pieceBB pos 8) s hs]
    simp [Nat.xor_assoc, Nat.xor_comm, xor_left_comm]
  · rw [computeBoards, computeBoards,
        pieceBB_updBB_ne pos 9 (1 <<< s) 0 (by norm_num),
        pieceBB_updBB_ne pos 9 (1 <<< s) 1 (by norm_num),
        pieceBB_updBB_ne pos 9 (1 <<< s) 2 (by norm_num),
        pieceBB_updBB_ne pos 9 (1 <<< s) 3 (by norm_num),
        pieceBB_updBB_ne pos 9 (1 <<< s) 4 (by norm_num),
        pieceBB_updBB_ne pos 9 (1 <<< s) 5 (by norm_num),
        pieceBB_updBB_ne pos 9 (1 <<< s) 6 (by norm_num),
        pieceBB_updBB_ne pos 9 (1 <<< s) 7 (by norm_num),
        pieceBB_updBB_ne pos 9 (1 <<< s) 8 (by norm_num),
        pieceBB_updBB_ne pos 9 (1 <<< s) 10 (by norm_num),
        pieceBB_updBB_ne pos 9 (1 <<< s) 11 (by norm_num),
        pieceBB_updBB_self pos 9 (1 <<< s) (by norm_num),
        hashBB_toggle (kb.piece 9) (pieceBB pos 9) s hs]
    simp [Nat.xor_assoc, Nat.xor_comm, xor_left_comm]
  · rw [computeBoards, computeBoards,
        pieceBB_updBB_ne pos 10 (1 <<< s) 0 (by norm_num),
        pieceBB_updBB_ne pos 10 (1 <<< s) 1 (by norm_num),
        pieceBB_updBB_ne pos 10 (1 <<< s) 2 (by norm_num),
        pieceBB_updBB_ne pos 10 (1 <<< s) 3 (by norm_num),
        pieceBB_updBB_ne pos 10 (1 <<< s) 4 (by norm_num),
        pieceBB_updBB_ne pos 10 (1 <<< s) 5 (by norm_num),
        pieceBB_updBB_ne pos 10 (1 <<< s) 6 (by norm_num),
        pieceBB_updBB_ne pos 10 (1 <<< s) 7 (by norm_num),
        pieceBB_updBB_ne pos 10 (1 <<< s) 8 (by norm_num),
        pieceBB_updBB_ne pos 10 (1 <<< s) 9 (by norm_num),
        pieceBB_updBB_ne pos 10 (1 <<< s) 11 (by norm_num),
        pieceBB_updBB_self pos 10 (1 <<< s) (by norm_num),
        hashBB_toggle (kb.piece 10) (pieceBB pos 10) s hs]
    simp [Nat.xor_assoc, Nat.xor_comm, xor_left_comm]
  · rw [computeBoards, computeBoards,
        pieceBB_updBB_ne pos 11 (1 <<< s) 0 (by norm_num),
        pieceBB_updBB_ne pos 11 (1 <<< s) 1 (by norm_num),
        pieceBB_updBB_ne pos 11 (1 <<< s) 2 (by norm_num),
        pieceBB_updBB_ne pos 11 (1 <<< s) 3 (by norm_num),
        pieceBB_updBB_ne pos 11 (1 <<< s) 4 (by norm_num),
        pieceBB_updBB_ne pos 11 (1 <<< s) 5 (by norm_num),
        pieceBB_updBB_ne pos 11 (1 <<< s) 6 (by norm_num),
        pieceBB_updBB_ne pos 11 (1 <<< s) 7 (by norm_num),
        pieceBB_updBB_ne pos 11 (1 <<< s) 8 (by norm_num),
        pieceBB_updBB_ne pos 11 (1 <<< s) 9 (by norm_num),
        pieceBB_updBB_ne pos 11 (1 <<< s) 10 (by norm_num),
        pieceBB_updBB_self pos 11 (1 <<< s) (by norm_num),
        hashBB_toggle (kb.piece 11) (pieceBB pos 11) s hs]
    simp [Nat.xor_assoc, Nat.xor_comm, xor_left_comm]

end ChessPlusPlus

namespace ChessPlusPlus

/-- The piece-square key XORs of `ZobristHasher::update`, collected. -/
def pieceKeys (kb : ZKeys) (m : Move) (moved captured : Nat) : Nat :=
  kb.piece moved m.fromSq ^^^
  (if m.flag = 2 then kb.piece (make_piece (get_piece_color moved) m.promotion) m.toSq
   else kb.piece moved m.toSq) ^^^
  (if captured ≠ 12 then kb.piece captured m.toSq else 0) ^^^
  (if m.flag = 4 then
    kb.piece (make_piece (if get_piece_color moved = 0 then 1 else 0) 0)
      (if get_piece_color moved = 1 then sq_add m.toSq 8 else sq_add m.toSq (-8))
   else 0) ^^^
  (if m.flag = 3 then
    kb.piece (make_piece (get_piece_color moved) 3)
      (if m.toSq = 6 then 7 else if m.toSq = 2 then 0 else if m.toSq = 62 then 63 else 56) ^^^
    kb.piece (make_piece (get_piece_color moved) 3)
      (if m.toSq = 6 then 5 else if m.toSq = 2 then 3 else if m.toSq = 62 then 61 else 59)
   else 0)

/-- Castle-key difference of `ZobristHasher::update`. -/
def crDelta (kb : ZKeys) (cr0 ncr : Nat) : Nat :=
  if cr0 ≠ ncr then kb.castle cr0 ^^^ kb.castle ncr else 0

/-- En-passant-key difference of `ZobristHasher::update`. -/
def epDelta (kb : ZKeys) (ep0 nep : Nat) : Nat :=
  if ep0 ≠ nep then
    (if ep0 ≠ 64 then kb.ep (ep0 % 8) else 0) ^^^ (if nep ≠ 64 then kb.ep (nep % 8) else 0)
  else 0

set_option maxHeartbeats 1600000 in
theorem hupdate_split (kb : ZKeys) (h : Nat) (m : Move)
    (moved captured cr0 ncr ep0 nep : Nat) :
    hupdate kb h m moved captured cr0 ncr ep0 nep =
      h ^^^ pieceKeys kb m moved captured ^^^ crDelta kb cr0 ncr ^^^
        epDelta kb ep0 nep ^^^ kb.black := by
  rw [hupdate, pieceKeys, crDelta, epDelta]
  by_cases h2 : m.flag = 2 <;> by_cases h12 : captured ≠ 12 <;> by_cases h4 : m.flag = 4 <;>
    by_cases h3 : m.flag = 3 <;> by_cases hcr : cr0 ≠ ncr <;> by_cases hep : ep0 ≠ nep <;>
    by_cases hep0 : ep0 ≠ 64 <;> by_cases hnep : nep ≠ 64 <;>
    simp [h2, h12, h4, h3, hcr, hep, hep0, hnep, Nat.xor_assoc]

theorem xor_cancel_l (a b : Nat) : a ^^^ (a ^^^ b) = b := by
  rw [← Nat.xor_assoc, Nat.xor_self, Nat.zero_xor]

theorem crDelta_spec (kb : ZKeys) (cr0 ncr : Nat) :
    kb.castle cr0 ^^^ crDelta kb cr0 ncr = kb.castle ncr := by
  by_cases h : cr0 ≠ ncr
  · rw [crDelta, if_pos h, xor_cancel_l]
  · rw [crDelta, if_neg h, Nat.xor_zero]
    push_neg at h
    rw [h]

theorem epDelta_spec (kb : ZKeys) (ep0 nep : Nat) :
    (if ep0 ≠ 64 then kb.ep (ep0 % 8) else 0) ^^^ epDelta kb ep0 nep =
      (if nep ≠ 64 then kb.ep (nep % 8) else 0) := by
  by_cases h : ep0 ≠ nep
  · rw [epDelta, if_pos h, xor_cancel_l]
  · rw [epDelta, if_neg h, Nat.xor_zero]
    push_neg at h
    rw [h]

theorem sideKey_spec (kb : ZKeys) (side0 : Nat) (h : side0 < 2) :
    (if side0 = 1 then kb.black else 0) ^^^ kb.black =
      (if (if side0 = 0 then 1 else 0) = 1 then kb.black else 0) := by
  interval_cases side0 <;> simp

theorem hash_assemble (B C E S PK dC dE bl B2 C2 E2 S2 : Nat)
    (hB : B ^^^ PK = B2) (hC : C ^^^ dC = C2) (hE : E ^^^ dE = E2) (hS : S ^^^ bl = S2) :
    (B ^^^ C ^^^ E ^^^ S) ^^^ PK ^^^ dC ^^^ dE ^^^ bl = B2 ^^^ C2 ^^^ E2 ^^^ S2 := by
  rw [← hB, ← hC, ← hE, ← hS]
  simp [Nat.xor_assoc, Nat.xor_comm, xor_left_comm]

theorem hash_flag0 (kb : ZKeys) (b : Board) (m : Move) (mi : Nat)
    (hwf : WF b.position) (hf : m.flag = 0)
    (hmi : get_piece_at b.position m.fromSq = mi) (hmilt : mi < 12)
    (hq : get_piece_at b.position m.toSq = 12)
    (hf64 : m.fromSq < 64) (ht64 : m.toSq < 64)
    (hinv : b.position.zobrist_hash = compute kb b.position) :
    (apply_move kb b m).position.zobrist_hash =
      compute kb (apply_move kb b m).position := by
  rw [apply_move_hash, hinv, hupdate_split, compute_split kb b.position, compute_apply]
  apply hash_assemble
  · rw [boards_after_flag0 b.position m hf hq, hmi,
        computeBoards_updBB kb _ mi m.toSq hmilt ht64,
        computeBoards_updBB kb _ mi m.fromSq hmilt hf64,
        pieceKeys, hq]
    simp [hf, Nat.xor_assoc, Nat.xor_comm, xor_left_comm]
  · exact crDelta_spec kb _ _
  · exact epDelta_spec kb _ _
  · exact sideKey_spec kb _ hwf.2.2.1

end ChessPlusPlus

namespace ChessPlusPlus

theorem hash_flag1 (kb : ZKeys) (b : Board) (m : Move) (mi q : Nat)
    (hwf : WF b.position) (hf : m.flag = 1)
    (hmi : get_piece_at b.position m.fromSq = mi) (hmilt : mi < 12)
    (hq : get_piece_at b.position m.toSq = q) (hqlt : q < 12)
    (hf64 : m.fromSq < 64) (ht64 : m.toSq < 64)
    (hinv : b.position.zobrist_hash = compute kb b.position) :
    (apply_move kb b m).position.zobrist_hash =
      compute kb (apply_move kb b m).position := by
  rw [apply_move_hash, hinv, hupdate_split, compute_split kb b.position, compute_apply]
  apply hash_assemble
  · rw [boards_after_flag1 b.position m hf (by rw [hq]; exact hqlt), hmi, hq,
        computeBoards_updBB kb _ mi m.toSq hmilt ht64,
        computeBoards_updBB kb _ mi m.fromSq hmilt hf64,
        computeBoards_updBB kb _ q m.toSq hqlt ht64,
        pieceKeys, if_pos (show q ≠ 12 by omega)]
    simp [hf, Nat.xor_assoc, Nat.xor_comm, xor_left_comm]
  · exact crDelta_spec kb _ _
  · exact epDelta_spec kb _ _
  · exact sideKey_spec kb _ hwf.2.2.1

theorem hash_flag2 (kb : ZKeys) (b : Board) (m : Move) (mi : Nat)
    (hwf : WF b.position) (hf : m.flag = 2)
    (hmi : get_piece_at b.position m.fromSq = mi) (hmilt : mi < 12) (hmi0 : mi % 6 = 0)
    (hp1 : 1 ≤ m.promotion) (hp4 : m.promotion ≤ 4)
    (hq : get_piece_at b.position m.toSq = 12)
    (hf64 : m.fromSq < 64) (ht64 : m.toSq < 64)
    (hinv : b.position.zobrist_hash = compute kb b.position) :
    (apply_move kb b m).position.zobrist_hash =
      compute kb (apply_move kb b m).position := by
  rw [apply_move_hash, hinv, hupdate_split, compute_split kb b.position, compute_apply]
  apply hash_assemble
  · rw [boards_after_flag2 b.position m hf (by rw [hmi]; exact hmilt), hmi, hq,
        if_neg (by norm_num : ¬(12 : Nat) ≠ 12),
        show mi / 6 * 6 = mi from by omega,
        computeBoards_updBB kb _ (mi + m.promotion) m.toSq (by omega) ht64,
        computeBoards_updBB kb _ mi m.toSq hmilt ht64,
        computeBoards_updBB kb _ mi m.toSq hmilt ht64,
        computeBoards_updBB kb _ mi m.fromSq hmilt hf64,
        pieceKeys]
    simp only [hf, get_piece_color, make_piece]
    rw [show mi / 6 * 6 = mi from by omega]
    simp [Nat.xor_assoc, Nat.xor_comm, xor_left_comm, Nat.xor_self, xor_cancel_l,
      Nat.xor_zero]
  · exact crDelta_spec kb _ _
  · exact epDelta_spec kb _ _
  · exact sideKey_spec kb _ hwf.2.2.1

theorem hash_flag2cap (kb : ZKeys) (b : Board) (m : Move) (mi q : Nat)
    (hwf : WF b.position) (hf : m.flag = 2)
    (hmi : get_piece_at b.position m.fromSq = mi) (hmilt : mi < 12) (hmi0 : mi % 6 = 0)
    (hp1 : 1 ≤ m.promotion) (hp4 : m.promotion ≤ 4)
    (hq : get_piece_at b.position m.toSq = q) (hqlt : q < 12)
    (hf64 : m.fromSq < 64) (ht64 : m.toSq < 64)
    (hinv : b.position.zobrist_hash = compute kb b.position) :
    (apply_move kb b m).position.zobrist_hash =
      compute kb (apply_move kb b m).position := by
  rw [apply_move_hash, hinv, hupdate_split, compute_split kb b.position, compute_apply]
  apply hash_assemble
  · rw [boards_after_flag2 b.position m hf (by rw [hmi]; exact hmilt), hmi, hq,
        if_pos (show q ≠ 12 by omega),
        show mi / 6 * 6 = mi from by omega,
        computeBoards_updBB kb _ (mi + m.promotion) m.toSq (by omega) ht64,
        computeBoards_updBB kb _ mi m.toSq hmilt ht64,
        computeBoards_updBB kb _ mi m.toSq hmilt ht64,
        computeBoards_updBB kb _ mi m.fromSq hmilt hf64,
        computeBoards_updBB kb _ q m.toSq hqlt ht64,
        pieceKeys, if_pos (show q ≠ 12 by omega)]
    simp only [hf, get_piece_color, make_piece]
    rw [show mi / 6 * 6 = mi from by omega]
    simp [Nat.xor_assoc, Nat.xor_comm, xor_left_comm, Nat.xor_self, xor_cancel_l,
      Nat.xor_zero]
  · exact crDelta_spec kb _ _
  · exact epDelta_spec kb _ _
  · exact sideKey_spec kb _ hwf.2.2.1

theorem hash_castle_wk (kb : ZKeys) (b : Board) (m : Move)
    (hwf : WF b.position) (hf : m.flag = 3) (hfrom : m.fromSq = 4) (hto : m.toSq = 6)
    (hk : get_piece_at b.position 4 = 5)
    (hqto : get_piece_at b.position 6 = 12)
    (hinv : b.position.zobrist_hash = compute kb b.position) :
    (apply_move kb b m).position.zobrist_hash =
      compute kb (apply_move kb b m).position := by
  rw [apply_move_hash, hinv, hupdate_split, compute_split kb b.position, compute_apply]
  apply hash_assemble
  · rw [boards_after_castle_wk b.position m hf hfrom hto hk hqto,
        computeBoards_updBB kb _ 3 5 (by norm_num) (by norm_num),
        computeBoards_updBB kb _ 3 7 (by norm_num) (by norm_num),
        computeBoards_updBB kb _ 5 6 (by norm_num) (by norm_num),
        computeBoards_updBB kb _ 5 4 (by norm_num) (by norm_num),
        pieceKeys, hfrom, hto, hk, hqto]
    simp [hf, get_piece_color, make_piece, Nat.xor_assoc, Nat.xor_comm, xor_left_comm]
  · exact crDelta_spec kb _ _
  · exact epDelta_spec kb _ _
  · exact sideKey_spec kb _ hwf.2.2.1

theorem hash_castle_wq (kb : ZKeys) (b : Board) (m : Move)
    (hwf : WF b.position) (hf : m.flag = 3) (hfrom : m.fromSq = 4) (hto : m.toSq = 2)
    (hk : get_piece_at b.position 4 = 5)
    (hqto : get_piece_at b.position 2 = 12)
    (hinv : b.position.zobrist_hash = compute kb b.position) :
    (apply_move kb b m).position.zobrist_hash =
      compute kb (apply_move kb b m).position := by
  rw [apply_move_hash, hinv, hupdate_split, compute_split kb b.position, compute_apply]
  apply hash_assemble
  · rw [boards_after_castle_wq b.position m hf hfrom hto hk hqto,
        computeBoards_updBB kb _ 3 3 (by norm_num) (by norm_num),
        computeBoards_updBB kb _ 3 0 (by norm_num) (by norm_num),
        computeBoards_updBB kb _ 5 2 (by norm_num) (by norm_num),
        computeBoards_updBB kb _ 5 4 (by norm_num) (by norm_num),
        pieceKeys, hfrom, hto, hk, hqto]
    simp [hf, get_piece_color, make_piece, Nat.xor_assoc, Nat.xor_comm, xor_left_comm]
  · exact crDelta_spec kb _ _
  · exact epDelta_spec kb _ _
  · exact sideKey_spec kb _ hwf.2.2.1

theorem hash_castle_bk (kb : ZKeys) (b : Board) (m : Move)
    (hwf : WF b.position) (hf : m.flag = 3) (hfrom : m.fromSq = 60) (hto : m.toSq = 62)
    (hk : get_piece_at b.position 60 = 11)
    (hqto : get_piece_at b.position 62 = 12)
    (hinv : b.position.zobrist_hash = compute kb b.position) :
    (apply_move kb b m).position.zobrist_hash =
      compute kb (apply_move kb b m).position := by
  rw [apply_move_hash, hinv, hupdate_split, compute_split kb b.position, compute_apply]
  apply hash_assemble
  · rw [boards_after_castle_bk b.position m hf hfrom hto hk hqto,
        computeBoards_updBB kb _ 9 61 (by norm_num) (by norm_num),
        computeBoards_updBB kb _ 9 63 (by norm_num) (by norm_num),
        computeBoards_updBB kb _ 11 62 (by norm_num) (by norm_num),
        computeBoards_updBB kb _ 11 60 (by norm_num) (by norm_num),
        pieceKeys, hfrom, hto, hk, hqto]
    simp [hf, get_piece_color, make_piece, Nat.xor_assoc, Nat.xor_comm, xor_left_comm]
  · exact crDelta_spec kb _ _
  · exact epDelta_spec kb _ _
  · exact sideKey_spec kb _ hwf.2.2.1

theorem hash_castle_bq (kb : ZKeys) (b : Board) (m : Move)
    (hwf : WF b.position) (hf : m.flag = 3) (hfrom : m.fromSq = 60) (hto : m.toSq = 58)
    (hk : get_piece_at b.position 60 = 11)
    (hqto : get_piece_at b.position 58 = 12)
    (hinv : b.position.zobrist_hash = compute kb b.position) :
    (apply_move kb b m).position.zobrist_hash =
      compute kb (apply_move kb b m).position := by
  rw [apply_move_hash, hinv, hupdate_split, compute_split kb b.position, compute_apply]
  apply hash_assemble
  · rw [boards_after_castle_bq b.position m hf hfrom hto hk hqto,
        computeBoards_updBB kb _ 9 59 (by norm_num) (by norm_num),
        computeBoards_updBB kb _ 9 56 (by norm_num) (by norm_num),
        computeBoards_updBB kb _ 11 58 (by norm_num) (by norm_num),
        computeBoards_updBB kb _ 11 60 (by norm_num) (by norm_num),
        pieceKeys, hfrom, hto, hk, hqto]
    simp [hf, get_piece_color, make_piece, Nat.xor_assoc, Nat.xor_comm, xor_left_comm]
  · exact crDelta_spec kb _ _
  · exact epDelta_spec kb _ _
  · exact sideKey_spec kb _ hwf.2.2.1

end ChessPlusPlus

namespace ChessPlusPlus

theorem hash_good (kb : ZKeys) (b : Board) (m : Move)
    (hwf : WF b.position) (hco : CastleOk b.position)
    (hinv : b.position.zobrist_hash = compute kb b.position)
    (hgm : GoodMove b.position m) :
    (apply_move kb b m).position.zobrist_hash =
      compute kb (apply_move kb b m).position := by
  have hdisj := hwf.2.1
  have hside := hwf.2.2.1
  rcases hgm with ⟨T, hT, hf64, ht64, hbit, hflag⟩ |
    ⟨hf2, hf64, ht64, hp1, hp4, hbit, hcap⟩ | ⟨hf3, hcase⟩
  · have hmi : get_piece_at b.position m.fromSq = b.position.side_to_move * 6 + T := by
      apply get_piece_at_of _ _ _ (by omega) hbit
      intro j hj hne
      exact testBit_false_of_disj (hdisj _ j (by omega) hj (fun e => hne e.symm)) hbit
    rcases hflag with ⟨hfl0, hq⟩ | ⟨hfl1, hq12, hcol⟩
    · exact hash_flag0 kb b m _ hwf hfl0 hmi (by omega) hq hf64 ht64 hinv
    · have hqle := get_piece_at_le b.position m.toSq
      exact hash_flag1 kb b m _ (get_piece_at b.position m.toSq) hwf hfl1 hmi (by omega)
        rfl (by omega) hf64 ht64 hinv
  · have hmi : get_piece_at b.position m.fromSq = b.position.side_to_move * 6 + 0 := by
      apply get_piece_at_of _ _ _ (by omega) hbit
      intro j hj hne
      exact testBit_false_of_disj (hdisj _ j (by omega) hj (fun e => hne e.symm)) hbit
    rcases hcap with hq | ⟨hq12, hcol⟩
    · exact hash_flag2 kb b m _ hwf hf2 hmi (by omega) (by omega) hp1 hp4 hq hf64 ht64 hinv
    · have hqle := get_piece_at_le b.position m.toSq
      exact hash_flag2cap kb b m _ (get_piece_at b.position m.toSq) hwf hf2 hmi (by omega)
        (by omega) hp1 hp4 rfl (by omega) hf64 ht64 hinv
  · rcases hcase with ⟨hs, hfrom, hc⟩ | ⟨hs, hfrom, hc⟩
    · rcases hc with ⟨hto, hr, hq⟩ | ⟨hto, hr, hq⟩
      · exact hash_castle_wk kb b m hwf hf3 hfrom hto (hco.1 (Or.inl hr)) hq hinv
      · exact hash_castle_wq kb b m hwf hf3 hfrom hto (hco.1 (Or.inr hr)) hq hinv
    · rcases hc with ⟨hto, hr, hq⟩ | ⟨hto, hr, hq⟩
      · exact hash_castle_bk kb b m hwf hf3 hfrom hto (hco.2 (Or.inl hr)) hq hinv
      · exact hash_castle_bq kb b m hwf hf3 hfrom hto (hco.2 (Or.inr hr)) hq hinv

theorem make_move_hash_invariant (kb : ZKeys) (b b2 : Board) (m : Move)
    (hwf : WF b.position) (hco : CastleOk b.position)
    (hinv : b.position.zobrist_hash = compute kb b.position)
    (hmk : make_move kb b m = some b2)
    (hm : m ∈ generate_pseudo_legal_moves b.position) :
    b2.position.zobrist_hash = compute kb b2.position := by
  rw [make_move] at hmk
  by_cases hleg : is_legal_move kb b m = true
  · rw [if_pos hleg] at hmk
    have hb2 : b2 = apply_move kb b m := by
      injection hmk with h
      exact h.symm
    subst hb2
    exact hash_good kb b m hwf hco hinv (generate_good b.position m hwf.1 hwf.2.2.1 hm)
  · rw [if_neg hleg] at hmk
    exact absurd hmk (by simp)

end ChessPlusPlus

namespace ChessPlusPlus

theorem restore_from_history_of_cons (b : Board) (u : MoveUndo) (rest : List MoveUndo)
    (h : b.undo_history = u :: rest) :
    (restore_from_history b).undo_history = rest ∧
    (restore_from_history b).position.zobrist_hash = u.old_hash ∧
    (restore_from_history b).position.castle_rights = u.old_castle_rights ∧
    (restore_from_history b).position.en_passant_square = u.old_en_passant ∧
    (restore_from_history b).position.halfmove_clock = u.old_halfmove_clock := by
  obtain ⟨p, hist⟩ := b
  have h2 : hist = u :: rest := h
  subst h2
  exact ⟨rfl, rfl, rfl, rfl, rfl⟩

theorem load_fen_undo_history (kb : ZKeys) (b b2 : Board) (fen : String)
    (h : load_fen kb b fen = .ok b2 ∨ load_fen kb b fen = .error b2) :
    b2.undo_history = b.undo_history := by
  cases hp : parse_fen kb b.position fen with
  | ok p =>
    rw [load_fen, hp] at h
    rcases h with h | h
    · injection h with h2
      rw [← h2]
    · exact absurd h (by simp)
  | error p =>
    rw [load_fen, hp] at h
    rcases h with h | h
    · exact absurd h (by simp)
    · injection h with h2
      rw [← h2]

end ChessPlusPlus

namespace ChessPlusPlus

/-- kb1 is a sample key table with distinct nonzero keys, used by
witnesses (every hash theorem holds for an arbitrary table, the fixed
mt19937-seeded tables of the C++ included). -/
def kb1 : ZKeys :=
  ⟨fun p s => (p + 1) * 1000003 + s * 257, fun c => 4000037 + c * 101,
   fun f => 5000011 + f * 103, 6000101⟩

/-- fenBoard builds a Board with empty history from a FEN string (via
parse_fen under the all-zero key table). -/
def fenBoard (fen : String) : Board := ⟨exceptValue (parse_fen kb0 emptyPosition fen), []⟩

/-- WF restated with the bounded quantifiers nested (the decidable form
used to discharge WF at concrete positions). -/
theorem WF_of_checks (pos : Position)
    (h1 : ∀ i, i < 12 → pieceBB pos i < 2 ^ 64)
    (h2 : ∀ i, i < 12 → ∀ j, j < 12 → i ≠ j → pieceBB pos i &&& pieceBB pos j = 0)
    (h3 : pos.side_to_move < 2)
    (h4 : pos.occupancy_white = pos.wp ||| pos.wn ||| pos.wb ||| pos.wr ||| pos.wq ||| pos.wk)
    (h5 : pos.occupancy_black = pos.bp ||| pos.bn ||| pos.bb2 ||| pos.br ||| pos.bq ||| pos.bk)
    (h6 : pos.occupancy_all =
      (pos.wp ||| pos.wn ||| pos.wb ||| pos.wr ||| pos.wq ||| pos.wk) |||
        (pos.bp ||| pos.bn ||| pos.bb2 ||| pos.br ||| pos.bq ||| pos.bk)) :
    WF pos :=
  ⟨h1, fun i j hi hj => h2 i hi j hj, h3, h4, h5, h6⟩

/-- CastleOk from decidable checks. -/
theorem CastleOk_of_bool (pos : Position)
    (h1 : (pos.castle_rights &&& 1 = 0 ∧ pos.castle_rights &&& 2 = 0) ∨ get_piece_at pos 4 = 5)
    (h2 : (pos.castle_rights &&& 4 = 0 ∧ pos.castle_rights &&& 8 = 0) ∨ get_piece_at pos 60 = 11) :
    CastleOk pos := by
  constructor
  · intro hc
    rcases h1 with ⟨ha, hb⟩ | h
    · rcases hc with hc | hc
      · exact absurd ha hc
      · exact absurd hb hc
    · exact h
  · intro hc
    rcases h2 with ⟨ha, hb⟩ | h
    · rcases hc with hc | hc
      · exact absurd ha hc
      · exact absurd hb hc
    · exact h

/-- C1: for every well-formed Board (disjoint in-range piece boards,
derived occupancies, valid side, castling rights only with the king at
home — invariants of every reachable state) and every move produced by
generate_moves, make_move succeeds and undo_move then returns exactly the
original Board: every Position field (piece bitboards, occupancies, side
to move, castle rights, en-passant square, halfmove clock, fullmove
number, zobrist hash) and the undo stack are restored, the stack having
been pushed by exactly one entry whose saved old_hash is the prior hash —
which is what undo_move restores, rather than recomputing. -/
theorem C1_unmake_symmetry (kb : ZKeys) (b : Board) (m : Move)
    (hwf : WF b.position) (hco : CastleOk b.position)
    (hm : m ∈ generate_moves kb b) :
    ∃ b2, make_move kb b m = some b2 ∧ undo_move b2 = some b ∧
      ∃ u, b2.undo_history = u :: b.undo_history ∧
        u.old_hash = b.position.zobrist_hash :=
  make_undo_roundtrip kb b m hwf hco hm

/-- C1 witness: the starting position and the double push e2e4. -/
theorem C1_witness :
    WF startBoard.position ∧ CastleOk startBoard.position ∧
      (⟨12, 28, 0, 6⟩ : Move) ∈ generate_moves kb0 startBoard ∧
      (∃ b2, make_move kb0 startBoard ⟨12, 28, 0, 6⟩ = some b2 ∧
        undo_move b2 = some startBoard ∧
        ∃ u, b2.undo_history = u :: startBoard.undo_history ∧
          u.old_hash = startBoard.position.zobrist_hash) :=
  ⟨WF_of_checks _ (by decide) (by decide) (by decide) (by decide) (by decide) (by decide),
   CastleOk_of_bool _ (by decide) (by decide), by decide,
   C1_unmake_symmetry kb0 startBoard ⟨12, 28, 0, 6⟩
     (WF_of_checks _ (by decide) (by decide) (by decide) (by decide) (by decide) (by decide))
     (CastleOk_of_bool _ (by decide) (by decide)) (by decide)⟩

/-- C2: for every well-formed Board whose stored hash equals compute of
its position, and every pseudo-legal move accepted by make_move, the
incrementally updated zobrist_hash of the resulting Position equals
ZobristHasher::compute applied from scratch to it, for every key table. -/
theorem C2_hash_incremental (kb : ZKeys) (b b2 : Board) (m : Move)
    (hwf : WF b.position) (hco : CastleOk b.position)
    (hinv : b.position.zobrist_hash = compute kb b.position)
    (hm : m ∈ generate_pseudo_legal_moves b.position)
    (hmk : make_move kb b m = some b2) :
    b2.position.zobrist_hash = compute kb b2.position :=
  make_move_hash_invariant kb b b2 m hwf hco hinv hmk hm

/-- startB1 is the starting position reset under the sample table. -/
def startB1 : Board := reset kb1 ⟨emptyPosition, []⟩

/-- C2 witness: e2e4 from the start under the nonzero sample table. -/
theorem C2_witness :
    WF startB1.position ∧ CastleOk startB1.position ∧
      startB1.position.zobrist_hash = compute kb1 startB1.position ∧
      (⟨12, 28, 0, 6⟩ : Move) ∈ generate_pseudo_legal_moves startB1.position ∧
      make_move kb1 startB1 ⟨12, 28, 0, 6⟩ = some (apply_move kb1 startB1 ⟨12, 28, 0, 6⟩) ∧
      (apply_move kb1 startB1 ⟨12, 28, 0, 6⟩).position.zobrist_hash =
        compute kb1 (apply_move kb1 startB1 ⟨12, 28, 0, 6⟩).position :=
  ⟨WF_of_checks _ (by decide) (by decide) (by decide) (by decide) (by decide) (by decide),
   CastleOk_of_bool _ (by decide) (by decide), by decide, by decide, by decide,
   C2_hash_incremental kb1 startB1 (apply_move kb1 startB1 ⟨12, 28, 0, 6⟩) ⟨12, 28, 0, 6⟩
     (WF_of_checks _ (by decide) (by decide) (by decide) (by decide) (by decide) (by decide))
     (CastleOk_of_bool _ (by decide) (by decide)) (by decide) (by decide) (by decide)⟩

end ChessPlusPlus

namespace ChessPlusPlus

/-- fenD3 has a lone White pawn on d3 (square 19) plus kings. -/
def fenD3 : String := "4k3/8/8/8/8/3P4/8/4K3 w - - 0 1"

/-- fenD5 has a lone White pawn on d5 (square 35) plus kings. -/
def fenD5 : String := "4k3/8/8/3P4/8/8/8/4K3 w - - 0 1"

/-- Bd3 is the board of fenD3. -/
def Bd3 : Board := fenBoard fenD3

/-- Bd5 is the board of fenD5. -/
def Bd5 : Board := fenBoard fenD5

/-- C3: the attack oracle looks pawns up in the wrong direction. A White
pawn on d3 attacks e4 (the program's own table PAWN_ATTACKS White d3 has
bit e4), yet is_square_attacked_by reports e4 NOT attacked by White; a
White pawn on d5 does not attack e4 (its table bit for e4 is clear), yet
is_square_attacked_by reports e4 attacked by White. The code indexes
pawn_attacks with the attacker's color from the target square instead of
the defender's, so the pawn lookup runs one rank the wrong way. -/
theorem C3_pawn_attack_direction_bug :
    (pieceBB Bd3.position 0).testBit 19 = true ∧
    (PAWN_ATTACKS 0 19).testBit 28 = true ∧
    is_square_attacked_by Bd3.position 28 0 = false ∧
    (pieceBB Bd5.position 0).testBit 35 = true ∧
    (PAWN_ATTACKS 0 35).testBit 28 = false ∧
    is_square_attacked_by Bd5.position 28 0 = true := by decide

/-- fenRook is a position with a White rook on a1 free to move to a3. -/
def fenRook : String := "4k3/8/8/8/8/8/8/R3K3 w - - 0 1"

/-- B4 is the board of fenRook. -/
def B4 : Board := fenBoard fenRook

/-- C4: make_move of the ROOK move a1-a3 (no pawn moved) sets
en_passant_square to a2 (square 8), not INVALID: calculate_new_en_passant
runs after the boards were mutated, reads the now-empty from-square
(NONE, whose type index 12 % 6 = 0 coincides with PAWN) and fires for any
move whose from/to differ by 16. -/
theorem C4_ep_set_by_rook_move :
    get_piece_at B4.position 0 = 3 ∧
    Option.map (fun b2 => b2.position.en_passant_square)
      (make_move kb0 B4 ⟨0, 16, 0, 6⟩) = some 8 := by decide

/-- fenEP is the position after 1.e4 d5 2.e5 d5(!) ... with
en_passant_square d6: White's e5 pawn could capture en passant. -/
def fenEP : String := "rnbqkbnr/ppp1pppp/8/3pP3/8/8/PPPP1PPP/RNBQKBNR w KQkq d6 0 3"

/-- B5 is the board of fenEP. -/
def B5 : Board := fenBoard fenEP

/-- C5: in a position whose en_passant_square is the valid square d6
(43) with a White pawn on e5 (36) whose capture table covers d6,
pseudo-legal generation emits no move with flag EN_PASSANT (4) and no
move onto the en-passant square at all: generate_pawn_moves only captures
onto enemy-occupied squares and never consults en_passant_square. -/
theorem C5_no_en_passant_generated :
    B5.position.en_passant_square = 43 ∧
    (pieceBB B5.position 0).testBit 36 = true ∧
    (PAWN_ATTACKS 0 36).testBit 43 = true ∧
    (generate_pseudo_legal_moves B5.position).all (fun m => m.flag != 4) = true ∧
    (generate_pseudo_legal_moves B5.position).all (fun m => m.toSq != 43) = true := by
  decide

/-- fenKings is a position with kings at home, rooks on all corners and
full castling rights. -/
def fenKings : String := "r3k2r/8/8/8/8/8/8/R3K2R w KQkq - 0 1"

/-- B6 is the board of fenKings. -/
def B6 : Board := fenBoard fenKings

/-- C6: the plain king move e1-e2 (flag QUIET) leaves castle_rights at
15: calculate_new_castle_rights only clears the mover's two bits when the
flag is CASTLING, so an ordinary king move from E1/E8 keeps both rights
(the claim requires them cleared). -/
theorem C6_king_move_keeps_castle_rights :
    B6.position.castle_rights = 15 ∧
    get_piece_at B6.position 4 = 5 ∧
    Option.map (fun b2 => b2.position.castle_rights)
      (make_move kb0 B6 ⟨4, 12, 0, 6⟩) = some 15 := by decide

/-- fenMate is scenario S5: Black checkmated, Black to move. -/
def fenMate : String := "rnbqkbnr/ppppp2p/8/5ppQ/4P3/2N5/PPPP1PPP/R1B1KBNR b KQkq - 1 3"

/-- B7 is the board of fenMate. -/
def B7 : Board := fenBoard fenMate

/-- pst0 is the zero piece-square table (evaluate is proved for an
arbitrary table). -/
def pst0 : Nat → Nat → Nat → Int := fun _ _ _ => 0

/-- C7 (amended): on a checkmated position `evaluate` returns the
WHITE-perspective value, -CHECKMATE when White is to move (White is
mated) and +CHECKMATE when Black is to move — not the side-to-move
relative -CHECKMATE of the claim. The repository's own search test
asserts eval == +CHECKMATE in S5 with Black to move. -/
theorem C7_eval_white_perspective (kb : ZKeys) (pstv : Nat → Nat → Nat → Int) (b : Board)
    (hmate : is_checkmate kb b = true) :
    evaluate kb pstv b =
      (if b.position.side_to_move = 0 then -CHECKMATE else CHECKMATE) := by
  rw [evaluate, if_pos hmate]

/-- C7 counterexample: in S5 Black is to move and checkmated, yet
evaluate returns +CHECKMATE (positive), not -CHECKMATE as the
side-to-move-relative claim requires. -/
theorem C7_counterexample :
    is_checkmate kb0 B7 = true ∧ B7.position.side_to_move = 1 ∧
      evaluate kb0 pst0 B7 = CHECKMATE ∧ (0 : Int) < CHECKMATE := by decide

/-- C7 witness: the amended theorem applied to S5. -/
theorem C7_witness :
    is_checkmate kb0 B7 = true ∧
      evaluate kb0 pst0 B7 =
        (if B7.position.side_to_move = 0 then -CHECKMATE else CHECKMATE) :=
  ⟨by decide, C7_eval_white_perspective kb0 pst0 B7 (by decide)⟩

/-- C8: from the starting position (White to move, fullmove 1), the White
move e2e4 already increments fullmove_number to 2; the code increments
whenever the side to move becomes Black, i.e. after every WHITE move,
the opposite of the claim (and of the types.hpp comment). -/
theorem C8_fullmove_incremented_after_white_move :
    startBoard.position.side_to_move = 0 ∧
    startBoard.position.fullmove_number = 1 ∧
    Option.map (fun b2 => b2.position.fullmove_number)
      (make_move kb0 startBoard ⟨12, 28, 0, 6⟩) = some 2 := by decide

end ChessPlusPlus

namespace ChessPlusPlus

/-- loadOk tests for the ok outcome of load_fen. -/
def loadOk (e : Except Board Board) : Bool :=
  match e with
  | .ok _ => true
  | .error _ => false

/-- loadBoard extracts the carried Board of either outcome. -/
def loadBoard (e : Except Board Board) : Board :=
  match e with
  | .ok b => b
  | .error b => b

/-- fenShort stops after the en-passant field (4 fields). -/
def fenShort : String := "8/8/8/8/8/8/8/8 w - -"

/-- fenBadPiece has the unknown piece letter X. -/
def fenBadPiece : String := "rnbqkbnr/pppppppp/8/8/8/8/PPPPPPPP/XNBQKBNR w KQkq - 0 1"

/-- fenBadSide has the illegal side letter x. -/
def fenBadSide : String := "rnbqkbnr/pppppppp/8/8/8/8/PPPPPPPP/RNBQKBNR x KQkq - 0 1"

/-- fenBadClock has a non-numeric halfmove clock. -/
def fenBadClock : String := "rnbqkbnr/pppppppp/8/8/8/8/PPPPPPPP/RNBQKBNR w KQkq - ab 1"

/-- fenBadEP has an en-passant square outside a1..h8. -/
def fenBadEP : String := "rnbqkbnr/pppppppp/8/8/8/8/PPPPPPPP/RNBQKBNR w KQkq z9 0 1"

/-- fenBadCastle has castling letters outside KQkq-. -/
def fenBadCastle : String := "rnbqkbnr/pppppppp/8/8/8/8/PPPPPPPP/RNBQKBNR w Zz - 0 1"

/-- fenExtra has two extra fields beyond the sixth. -/
def fenExtra : String := "rnbqkbnr/pppppppp/8/8/8/8/PPPPPPPP/RNBQKBNR w KQkq - 0 1 extra junk"

/-- fenEmptyBadSide has an empty board field and the illegal side x. -/
def fenEmptyBadSide : String := "8/8/8/8/8/8/8/8 x KQkq - 0 1"

/-- C9 (amended): load_fen raises an error on a missing field (the clock
extractions fail), an unknown piece letter, an illegal side letter, a
non-numeric clock and an out-of-range en-passant square — but the
castling field is NOT validated (letters outside "KQkq-" are silently
ignored) and fields beyond the sixth are silently ignored; and a FAILING
load_fen does not leave the Board unchanged: the pawn board of the
returned (failed) Board is already zeroed by the partial parse, unlike
the original's. -/
theorem C9_load_fen_validation :
    loadOk (load_fen kb0 startBoard fenShort) = false ∧
    loadOk (load_fen kb0 startBoard fenBadPiece) = false ∧
    loadOk (load_fen kb0 startBoard fenBadSide) = false ∧
    loadOk (load_fen kb0 startBoard fenBadClock) = false ∧
    loadOk (load_fen kb0 startBoard fenBadEP) = false ∧
    loadOk (load_fen kb0 startBoard fenBadCastle) = true ∧
    loadOk (load_fen kb0 startBoard fenExtra) = true ∧
    (loadBoard (load_fen kb0 startBoard fenEmptyBadSide)).position.wp = 0 ∧
    startBoard.position.wp ≠ 0 := by decide

/-- C9 counterexample: the malformed castling field "Zz" does not raise —
load_fen answers ok — and the failing load of fenEmptyBadSide returns a
Board whose position differs from the original (its pawn board is 0). -/
theorem C9_counterexample :
    loadOk (load_fen kb0 startBoard fenBadCastle) = true ∧
    (loadBoard (load_fen kb0 startBoard fenEmptyBadSide)).position ≠
      startBoard.position := by decide

/-- C10: load_fen only rewrites the Position: in BOTH outcomes the
returned Board carries exactly the caller's undo stack, so move_history
and position_repetitions still see the pre-load entries, and when the
stack was nonempty an undo_move right after the load still succeeds,
pops the pre-load entry and restores its old_hash (and the other
snapshot scalars); the stack is emptied by reset and clear_history. -/
theorem C10_load_fen_frame (kb : ZKeys) (b : Board) (fen : String) :
    (∀ b2, (load_fen kb b fen = .ok b2 ∨ load_fen kb b fen = .error b2) →
      b2.undo_history = b.undo_history ∧
      move_history b2 = move_history b ∧
      position_repetitions b2 =
        (b.undo_history.filter (fun u => u.old_hash = b2.position.zobrist_hash)).length ∧
      ∀ u rest, b.undo_history = u :: rest →
        ∃ b3, undo_move b2 = some b3 ∧ b3.undo_history = rest ∧
          b3.position.zobrist_hash = u.old_hash ∧
          b3.position.castle_rights = u.old_castle_rights ∧
          b3.position.en_passant_square = u.old_en_passant ∧
          b3.position.halfmove_clock = u.old_halfmove_clock) ∧
    (reset kb b).undo_history = [] ∧ (clear_history b).undo_history = [] := by
  refine ⟨?_, rfl, rfl⟩
  intro b2 h
  have hu := load_fen_undo_history kb b b2 fen h
  refine ⟨hu, by rw [move_history, move_history, hu], by rw [position_repetitions, hu], ?_⟩
  intro u rest hcons
  have hne : b2.undo_history.isEmpty = false := by
    rw [hu, hcons]
    rfl
  refine ⟨restore_from_history b2, ?_,
    restore_from_history_of_cons b2 u rest (by rw [hu, hcons])⟩
  rw [undo_move, hne]
  simp

end ChessPlusPlus
